import Mathlib

/-!
Verification development for `zk`: create-mode flags and the internal `assert` package.

The development has two parts.

* `Zk.CreateMode`: the translation between wire flag integers and node creation modes.
  Only the test file `create_mode_test.go` is part of the sources, so the parser and the
  accessor are modelled from the specification.
* `Zk.Assert`: the package `internal/assert` (`assert.go`), embedded function by function,
  together with the recording reporter `fakeT` of `assert_test.go` and a model of the
  fragment of Go's `fmt` and `reflect` packages the assertions call into.
-/

namespace Zk

/-! ## Strings -/

/-- Go's `strings.Contains(s, sub)`: `sub` occurs in `s` as a contiguous run. -/
def strContains (s sub : String) : Prop := sub.data <:+: s.data

instance (s sub : String) : Decidable (strContains s sub) := by
  unfold strContains; infer_instance

/-! ## Create modes -/

namespace CreateMode

/-- Modelled from the spec: the flag constant `FlagPersistent`, declared outside the
available sources; the variant table gives persistent = 0. -/
def FlagPersistent : Int := 0

/-- Modelled from the spec: the flag constant `FlagEphemeral`; ephemeral = 1. -/
def FlagEphemeral : Int := 1

/-- Modelled from the spec: the flag constant `FlagSequence`; sequential = 2. -/
def FlagSequence : Int := 2

/-- Modelled from the spec: the flag constant `FlagEphemeralSequential`;
ephemeral+sequential = 3. -/
def FlagEphemeralSequential : Int := 3

/-- Modelled from the spec: the flag constant `FlagContainer`; container = 4. -/
def FlagContainer : Int := 4

/-- Modelled from the spec: the flag constant `FlagTTL`; ttl = 5. -/
def FlagTTL : Int := 5

/-- Modelled from the spec: the flag constant `FlagPersistentSequentialWithTTL`;
persistent-sequential-with-ttl = 6. -/
def FlagPersistentSequentialWithTTL : Int := 6

/-- Modelled from the spec: the type `createMode`, declared outside the available sources.
The spec describes it as a closed variant over seven named modes. -/
inductive createMode where
  | persistent
  | ephemeral
  | sequential
  | ephemeralSequential
  | container
  | ttl
  | persistentSequentialWithTTL
  deriving DecidableEq, Repr

/-- Modelled from the spec: the accessor `createMode.toFlag`, defined outside the available
sources. It returns the integer associated with the variant by the variant table. -/
def createMode.toFlag : createMode → Int
  | .persistent => FlagPersistent
  | .ephemeral => FlagEphemeral
  | .sequential => FlagSequence
  | .ephemeralSequential => FlagEphemeralSequential
  | .container => FlagContainer
  | .ttl => FlagTTL
  | .persistentSequentialWithTTL => FlagPersistentSequentialWithTTL

/-- Modelled from the spec: the text of the `InvalidFlag` error, which includes the phrase
"invalid flag value" and the literal input value. -/
def invalidFlagText (flag : Int) : String :=
  "invalid flag value: " ++ toString flag

/-- Modelled from the spec: the parser `parseCreateMode`, defined outside the available
sources (only its test is present). A flag equal to one of the seven legal values gives the
corresponding mode and no error; any other integer gives an `InvalidFlag` error. The Go
result pair `(createMode, error)` is an `Except` whose error carries the error text; the
parameter is an `int32` in the test, embedded in `Int`. -/
def parseCreateMode (flag : Int) : Except String createMode :=
  if flag = FlagPersistent then .ok .persistent
  else if flag = FlagEphemeral then .ok .ephemeral
  else if flag = FlagSequence then .ok .sequential
  else if flag = FlagEphemeralSequential then .ok .ephemeralSequential
  else if flag = FlagContainer then .ok .container
  else if flag = FlagTTL then .ok .ttl
  else if flag = FlagPersistentSequentialWithTTL then .ok .persistentSequentialWithTTL
  else .error (invalidFlagText flag)

end CreateMode

/-! ## The fragment of Go values -/

namespace Assert

/-- The formatting directives of the fragment: `%v`, `%+v`, `%d` and `%s`. -/
inductive Verb where
  | v
  | plusV
  | d
  | s
  deriving DecidableEq, Repr

/-- A Go value held in an `interface{}`, restricted to the kinds the assertions are exercised
with:

* the nil interface, `bool`, `int`, `int32`, `string`;
* a `float64`, as far as equality sees it: `none` is a NaN, `some q` is the number `q` (the
  infinities are outside the fragment);
* an error made by `errors.New`;
* an error value of a defined struct type `typ` without fields that implements
  `fmt.Formatter`: `text` is what its `Error()` returns, `formatted verb` is what its
  `Format` method writes for the directive;
* a function value (`addr = 0` is the nil function, any other number stands for its code
  pointer);
* a nil `[]interface{}`, or a non-nil one given by the address `ptr` of its first element
  and by its elements;
* a nil `map[string]interface{}`, or a non-nil one given by its address `ptr` and by its
  entries;
* a value of an anonymous struct type given by its fields in declaration order, each field
  typed as the value it holds.

Two slices (or maps) with the same address are the same slice (map): this is how one value
handed over twice, or two values that share a part, are told from two separate copies.
Channels, arrays and pointers other than these are outside the fragment. The keys of a Go
map are distinct; the predicate `wellFormed` below says so of the entries of every map in a
value. -/
inductive Value where
  | nil
  | bool (b : Bool)
  | int (n : Int)
  | int32 (n : Int)
  | float64 (x : Option ℚ)
  | str (s : String)
  | err (msg : String)
  | formatter (typ : String) (text : String) (formatted : Verb → String)
  | func (addr : Nat)
  | nilSlice
  | slice (ptr : Nat) (elems : List Value)
  | nilMap
  | map (ptr : Nat) (entries : List (String × Value))
  | struct (fields : List (String × Value))

/-- A non-nil Go value of interface type `error`, of one of the two kinds of the fragment:
made by `errors.New(text)`, or of a defined type that also implements `fmt.Formatter`. -/
inductive ErrorValue where
  | errorString (text : String)
  | formatter (typ : String) (text : String) (formatted : Verb → String)

/-- The method `Error()` of an error value. -/
def ErrorValue.Error : ErrorValue → String
  | .errorString text => text
  | .formatter _ text _ => text

/-- The interface value that holds a non-nil error when it is passed as an `interface{}`. -/
def ErrorValue.toValue : ErrorValue → Value
  | .errorString text => .err text
  | .formatter typ text formatted => .formatter typ text formatted

/-- A Go value of interface type `error`: `none` is the nil error, `some e` is a non-nil
error. -/
abbrev GoError := Option ErrorValue

/-- The interface value that holds an `error` when it is passed as an `interface{}`. -/
def GoError.toValue : GoError → Value
  | none => .nil
  | some e => e.toValue

/-! ## `reflect.DeepEqual` on the fragment -/

/-- Go's map index `m[k]` on the entries of a map: the value stored under `k`, if any. -/
def mapIndex (k : String) : List (String × Value) → Option Value
  | [] => none
  | (k', x) :: rest => if k' = k then some x else mapIndex k rest

/-- Go's `==` on two `float64` values: a NaN equals nothing, not even itself. -/
def floatEq (a b : Option ℚ) : Bool :=
  match a, b with
  | some p, some q => p == q
  | _, _ => false

mutual
/-- Go's `reflect.DeepEqual(x, y)` on the fragment. Values of different dynamic types are
never equal; scalars and strings are compared with `==`, so a NaN equals nothing; errors
made by `errors.New` are pointers to a struct holding the text, compared by their contents;
two values of one struct type without fields are equal; function values are equal only when
both are nil; a nil slice or map equals only a nil slice or map; two non-nil slices (maps)
of different lengths are not equal, two of the same length are equal when they have the
same address, and otherwise they are compared element by element (key by key); structs are
compared field by field (the field names are part of the struct type). -/
def deepEqual : Value → Value → Bool
  | .nil, .nil => true
  | .bool a, .bool b => a == b
  | .int a, .int b => a == b
  | .int32 a, .int32 b => a == b
  | .float64 a, .float64 b => floatEq a b
  | .str a, .str b => a == b
  | .err a, .err b => a == b
  | .formatter t1 _ _, .formatter t2 _ _ => t1 == t2
  | .func a, .func b => a == 0 && b == 0
  | .nilSlice, .nilSlice => true
  | .slice p xs, .slice q ys => xs.length == ys.length && (p == q || deepEqualElems xs ys)
  | .nilMap, .nilMap => true
  | .map p m1, .map q m2 => m1.length == m2.length && (p == q || deepEqualEntries m1 m2)
  | .struct f1, .struct f2 => deepEqualFields f1 f2
  | _, _ => false
termination_by structural x => x
/-- Element-wise comparison of two slices: equal length and deeply equal elements. -/
def deepEqualElems : List Value → List Value → Bool
  | [], [] => true
  | x :: xs, y :: ys => deepEqual x y && deepEqualElems xs ys
  | _, _ => false
termination_by structural x => x
/-- The loop of `reflect.DeepEqual` over the keys of the first map: every key of the first
map is present in the second with a deeply equal value. -/
def deepEqualEntries : List (String × Value) → List (String × Value) → Bool
  | [], _ => true
  | (k, x) :: rest, m2 =>
    (match mapIndex k m2 with
      | some y => deepEqual x y
      | none => false) && deepEqualEntries rest m2
termination_by structural x => x
/-- Field-wise comparison of two struct values: the same field names in the same order and
deeply equal field values. -/
def deepEqualFields : List (String × Value) → List (String × Value) → Bool
  | [], [] => true
  | (n1, x) :: xs, (n2, y) :: ys => n1 == n2 && deepEqual x y && deepEqualFields xs ys
  | _, _ => false
termination_by structural x => x
end

/-! ## The fragment of package `fmt` -/

/-- The verb character of a directive, as `fmt` writes it in its diagnostics. -/
def Verb.char : Verb → Char
  | .v => 'v'
  | .plusV => 'v'
  | .d => 'd'
  | .s => 's'

/-- The text `fmt` writes for a verb that does not apply to the operand:
`%!verb(type=value)`. -/
def badVerb (verb : Verb) (typ val : String) : String :=
  "%!" ++ String.singleton verb.char ++ "(" ++ typ ++ "=" ++ val ++ ")"

/-- The method `fmtBool` of `fmt`: `%v` writes `true` or `false`, any other verb of the
fragment is a bad verb. -/
def fmtBool (verb : Verb) (b : Bool) : String :=
  match verb with
  | .v | .plusV => if b then "true" else "false"
  | _ => badVerb verb "bool" (if b then "true" else "false")

/-- The method `fmtInteger` of `fmt` for a signed integer of type `typ`: `%v` and `%d` write
the decimal digits (with a minus sign for a negative number), `%s` is a bad verb. -/
def fmtInteger (verb : Verb) (typ : String) (n : Int) : String :=
  match verb with
  | .v | .plusV | .d => toString n
  | .s => badVerb verb typ (toString n)

/-- The method `fmtString` of `fmt`: `%v` and `%s` write the string itself, `%d` is a bad
verb. -/
def fmtString (verb : Verb) (s : String) : String :=
  match verb with
  | .v | .plusV | .s => s
  | .d => badVerb verb "string" s

/-- The order in which `fmt` prints the entries of a map with string keys: ascending keys,
compared as Go compares strings. -/
def keyLE (a b : String × String) : Prop := a.1.data ≤ b.1.data

instance : DecidableRel keyLE := fun a b => by unfold keyLE; infer_instance

/-- The parts of a composite value separated by `sep`. -/
def joinWith (sep : String) : List String → String
  | [] => ""
  | [x] => x
  | x :: y :: rest => x ++ sep ++ joinWith sep (y :: rest)

mutual
/-- The method `printValue` of `fmt` for an operand reached by reflection, on the fragment
and for the verbs of the fragment; `none` where the output is outside the fragment (an error
value below the top level, a function value, a floating point number). A nil interface inside a composite value
prints as `<nil>` under every verb; a slice prints its elements between brackets; a map
prints `map[key:value ...]` with ascending keys; a struct prints its field values between
braces, preceded by the field name under `%+v`. -/
def printValue (verb : Verb) : Value → Option String
  | .nil => some "<nil>"
  | .bool b => some (fmtBool verb b)
  | .int n => some (fmtInteger verb "int" n)
  | .int32 n => some (fmtInteger verb "int32" n)
  | .float64 _ => none
  | .str s => some (fmtString verb s)
  | .err _ => none
  | .formatter _ _ _ => none
  | .func _ => none
  | .nilSlice => some "[]"
  | .slice _ elems => (printElems verb elems).map fun parts => "[" ++ joinWith " " parts ++ "]"
  | .nilMap => some "map[]"
  | .map _ entries => (printEntries verb entries).map fun parts =>
      "map[" ++ joinWith " " ((parts.insertionSort keyLE).map fun kv =>
        fmtString verb kv.1 ++ ":" ++ kv.2) ++ "]"
  | .struct fields => (printEntries verb fields).map fun parts =>
      "\x7b" ++ joinWith " " (parts.map fun kv =>
        match verb with
        | .plusV => if kv.1 ≠ "" then kv.1 ++ ":" ++ kv.2 else kv.2
        | _ => kv.2) ++ "\x7d"
/-- The elements of a slice, each printed with `printValue`. -/
def printElems (verb : Verb) : List Value → Option (List String)
  | [] => some []
  | x :: rest =>
    match printValue verb x, printElems verb rest with
    | some a, some b => some (a :: b)
    | _, _ => none
/-- The entries of a map or the fields of a struct, each value printed with `printValue`. -/
def printEntries (verb : Verb) : List (String × Value) → Option (List (String × String))
  | [] => some []
  | (k, x) :: rest =>
    match printValue verb x, printEntries verb rest with
    | some a, some b => some ((k, a) :: b)
    | _, _ => none
end

/-- The method `printArg` of `fmt` on the fragment, `none` outside it. A nil operand prints
`<nil>` under `%v` and is a bad verb otherwise; an operand whose type implements
`fmt.Formatter` is handed to its `Format` method, whatever the verb, before `Error()` is
looked at; an error made by `errors.New` prints its `Error()` text under `%v` and `%s`;
every other operand is printed by `printValue`. -/
def printArgCore (verb : Verb) : Value → Option String
  | .nil =>
    match verb with
    | .v | .plusV => some "<nil>"
    | _ => some ("%!" ++ String.singleton verb.char ++ "(<nil>)")
  | .formatter _ _ formatted => some (formatted verb)
  | .err msg =>
    match verb with
    | .v | .plusV | .s => some msg
    | .d => none
  | x => printValue verb x

/-- What `fmt` does outside the modelled fragment, left uninterpreted: `arg` is the output of
`printArg` for an operand the fragment does not cover, `format` is the result of `Sprintf`
for a format string that uses a directive the fragment does not cover. Every statement
below holds for every such completion. -/
structure FmtOracle where
  arg : Verb → Value → String
  format : String → List Value → String

/-- A completion that writes nothing outside the fragment, for evaluating examples. -/
def FmtOracle.blank : FmtOracle :=
  ⟨fun _ _ => "", fun _ _ => ""⟩

/-- The method `printArg` of `fmt`: the fragment where it applies, the completion elsewhere. -/
def printArg (o : FmtOracle) (verb : Verb) (x : Value) : String :=
  (printArgCore verb x).getD (o.arg verb x)

/-- Go's `reflect.TypeOf(x).String()` on the fragment; `none` for the nil interface, which
has no type, and for struct values. -/
def typeString : Value → Option String
  | .nil => none
  | .bool _ => some "bool"
  | .int _ => some "int"
  | .int32 _ => some "int32"
  | .float64 _ => some "float64"
  | .str _ => some "string"
  | .err _ => some "*errors.errorString"
  | .formatter typ _ _ => some typ
  | .func _ => some "func()"
  | .nilSlice => some "[]interface \x7b\x7d"
  | .slice _ _ => some "[]interface \x7b\x7d"
  | .nilMap => some "map[string]interface \x7b\x7d"
  | .map _ _ => some "map[string]interface \x7b\x7d"
  | .struct _ => none

/-- One operand in the `%!(EXTRA ...)` diagnostic: `<nil>` or `type=value`. -/
def extraArg (o : FmtOracle) : Value → Option String
  | .nil => some "<nil>"
  | x => (typeString x).map fun typ => typ ++ "=" ++ printArg o .v x

/-- The operands of the `%!(EXTRA ...)` diagnostic. -/
def extraArgs (o : FmtOracle) : List Value → Option (List String)
  | [] => some []
  | x :: rest =>
    match extraArg o x, extraArgs o rest with
    | some a, some b => some (a :: b)
    | _, _ => none

/-- The end of `doPrintf`: operands left over when the format is exhausted are reported as
`%!(EXTRA type=value, ...)`. -/
def extraString (o : FmtOracle) (args : List Value) : Option (List Char) :=
  match args with
  | [] => some []
  | _ => (extraArgs o args).map fun parts => ("%!(EXTRA " ++ joinWith ", " parts ++ ")").data

/-- The text `fmt` writes for a directive with no operand left: `%!verb(MISSING)`. -/
def missingArg (verb : Verb) : List Char :=
  ("%!" ++ String.singleton verb.char ++ "(MISSING)").data

/-- The method `doPrintf` of `fmt` on the fragment: text is copied, `%%` writes a percent
sign, each of `%v`, `%+v`, `%d`, `%s` prints the next operand (or reports it missing), a
lone `%` at the end is `%!(NOVERB)`, and left-over operands are reported at the end. The
result is `none` when the format uses any other directive. -/
def doPrintf (o : FmtOracle) : List Char → List Value → Option (List Char)
  | [], args => extraString o args
  | ['%'], args => (extraString o args).map fun rest => "%!(NOVERB)".data ++ rest
  | '%' :: '%' :: format, args => (doPrintf o format args).map fun rest => '%' :: rest
  | '%' :: '+' :: 'v' :: format, [] =>
    (doPrintf o format []).map fun rest => missingArg .plusV ++ rest
  | '%' :: '+' :: 'v' :: format, a :: args =>
    (doPrintf o format args).map fun rest => (printArg o .plusV a).data ++ rest
  | '%' :: 'v' :: format, [] => (doPrintf o format []).map fun rest => missingArg .v ++ rest
  | '%' :: 'v' :: format, a :: args =>
    (doPrintf o format args).map fun rest => (printArg o .v a).data ++ rest
  | '%' :: 'd' :: format, [] => (doPrintf o format []).map fun rest => missingArg .d ++ rest
  | '%' :: 'd' :: format, a :: args =>
    (doPrintf o format args).map fun rest => (printArg o .d a).data ++ rest
  | '%' :: 's' :: format, [] => (doPrintf o format []).map fun rest => missingArg .s ++ rest
  | '%' :: 's' :: format, a :: args =>
    (doPrintf o format args).map fun rest => (printArg o .s a).data ++ rest
  | '%' :: _ :: _, _ => none
  | c :: format, args => (doPrintf o format args).map fun rest => c :: rest

/-- Go's `fmt.Sprintf(format, args...)`: `doPrintf` on the fragment, the completion for any
other format string. -/
def Sprintf (o : FmtOracle) (format : String) (args : List Value) : String :=
  match doPrintf o format.data args with
  | some out => String.mk out
  | none => o.format format args

/-! ## Package `internal/assert` -/

/-- The interface `TestingT`, a wrapper around the standard `*testing.T`: a reporter with
state `σ` whose two methods are state transformers. -/
structure TestingT (σ : Type) where
  Errorf : σ → String → List Value → σ
  Helper : σ → σ

/-- The address under which the slice of message arguments is handed to `Sprintf` as one
operand. The slice is only printed, never compared, and printing does not look at the
address, so one number stands for it. -/
def variadicAddr : Nat := 1

/-- The function `msgAndArgsToString`: nothing for an empty list, the `%+v` rendering of a
single element, the first element used as a format for the rest when it is a string, and
the `%+v` rendering of the whole list otherwise. -/
def msgAndArgsToString (o : FmtOracle) (msgAndArgs : List Value) : String :=
  match msgAndArgs with
  | [] => ""
  | [m] => Sprintf o "%+v" [m]
  | .str format :: rest => Sprintf o format rest
  | _ => Sprintf o "%+v" [.slice variadicAddr msgAndArgs]

/-- The function `fail`: marks the caller as a helper, appends the user message after
`": "` when it is not empty, and reports the message through `Errorf`, passing it as the
format with no further arguments. -/
def fail {σ : Type} (o : FmtOracle) (t : TestingT σ) (s : σ) (message : String)
    (msgAndArgs : List Value) : σ :=
  let s1 := t.Helper s
  let userMessage := msgAndArgsToString o msgAndArgs
  let message1 := if userMessage ≠ "" then message ++ (": " ++ userMessage) else message
  t.Errorf s1 message1 []

/-- The function `Equal`: asserts that `want` is deeply equal to `got`. -/
def Equal {σ : Type} (o : FmtOracle) (t : TestingT σ) (s : σ) (want got : Value)
    (msgAndArgs : List Value) : σ :=
  if !deepEqual want got then
    fail o t s (Sprintf o "not equal: want: %+v, got: %+v" [want, got]) msgAndArgs
  else s

/-- The function `NoError`: asserts that the error is nil. -/
def NoError {σ : Type} (o : FmtOracle) (t : TestingT σ) (s : σ) (err : GoError)
    (msgAndArgs : List Value) : σ :=
  if err.isSome then
    fail o t s (Sprintf o "unexpected error: %v" [err.toValue]) msgAndArgs
  else s

/-! ## The recording reporter of `assert_test.go` -/

/-- The struct `call` of the test file: a recorded method call. The `args` of a `Helper`
call are the nil slice. -/
structure call where
  name : String
  args : List Value

/-- The struct `fakeT` of the test file: a fake `TestingT` that records the calls made to
its methods. -/
structure fakeT where
  calls : List call

/-- The method `fakeT.Errorf`: records the format followed by the arguments. -/
def fakeT.Errorf (f : fakeT) (format : String) (args : List Value) : fakeT :=
  ⟨f.calls ++ [⟨"Errorf", [Value.str format] ++ args⟩]⟩

/-- The method `fakeT.Helper`: records the call. -/
def fakeT.Helper (f : fakeT) : fakeT :=
  ⟨f.calls ++ [⟨"Helper", []⟩]⟩

/-- The recording reporter as a `TestingT`. -/
def fakeT.reporter : TestingT fakeT :=
  ⟨fakeT.Errorf, fakeT.Helper⟩

/-! ## Vocabulary of the specification -/

/-- The default structural rendering of a value: what `%+v` prints for it. -/
def render (o : FmtOracle) (x : Value) : String :=
  printArg o .plusV x

/-- The suffix the specification appends to a failure message: the rendered optional message
after a `": "` separator when there is one, nothing otherwise. -/
def optionalSuffix (o : FmtOracle) (msgAndArgs : List Value) : String :=
  if msgAndArgsToString o msgAndArgs = "" then "" else ": " ++ msgAndArgsToString o msgAndArgs

/-- Whether `Equal` reported a failure to the recording reporter: the calls recorded after
differ from the calls recorded before. -/
def reportsFailure (before after : fakeT) : Prop :=
  after.calls ≠ before.calls

/-! ## Representation invariants and classes of values -/

/-- The keys of a Go map are distinct. -/
def keysDistinct (entries : List (String × Value)) : Bool :=
  decide (entries.map Prod.fst).Nodup

mutual
/-- The first representation invariant of `Value`: every map, at any depth, has distinct
keys, as every Go map has. -/
def wellFormed : Value → Bool
  | .slice _ elems => wellFormedElems elems
  | .map _ entries => keysDistinct entries && wellFormedEntries entries
  | .struct fields => wellFormedEntries fields
  | _ => true
termination_by structural x => x
/-- The invariant for the elements of a slice. -/
def wellFormedElems : List Value → Bool
  | [] => true
  | x :: rest => wellFormed x && wellFormedElems rest
termination_by structural x => x
/-- The invariant for the values of the entries of a map or the fields of a struct. -/
def wellFormedEntries : List (String × Value) → Bool
  | [] => true
  | (_, x) :: rest => wellFormed x && wellFormedEntries rest
termination_by structural x => x
end

/-- The length of a slice or of a map, as `len` gives it; 0 for any other value. -/
def lenOf : Value → Nat
  | .slice _ elems => elems.length
  | .map _ entries => entries.length
  | _ => 0

mutual
/-- The non-nil slices and maps that occur in a value, at any depth, each with its address. -/
def backing : Value → List (Nat × Value)
  | .slice ptr elems => (ptr, .slice ptr elems) :: backingElems elems
  | .map ptr entries => (ptr, .map ptr entries) :: backingEntries entries
  | .struct fields => backingEntries fields
  | _ => []
termination_by structural x => x
/-- The slices and maps that occur in the elements of a slice. -/
def backingElems : List Value → List (Nat × Value)
  | [] => []
  | x :: rest => backing x ++ backingElems rest
termination_by structural x => x
/-- The slices and maps that occur in the entries of a map or the fields of a struct. -/
def backingEntries : List (String × Value) → List (Nat × Value)
  | [] => []
  | (_, x) :: rest => backing x ++ backingEntries rest
termination_by structural x => x
end

/-- Two lists of slices and maps agree: a member of the one and a member of the other that
have the same address and the same length are the same slice (map). -/
def storesAgree (left right : List (Nat × Value)) : Prop :=
  ∀ a ∈ left, ∀ b ∈ right, a.1 = b.1 → lenOf a.2 = lenOf b.2 → a.2 = b.2

/-- The second representation invariant, of two values taken at the same moment: a slice
(map) of the one and a slice (map) of the other that have the same address and the same
length are one slice (map), so they have the same elements (entries). -/
def sharingConsistent (x y : Value) : Prop :=
  storesAgree (backing x) (backing y)

mutual
/-- No NaN and no non-nil function value is reached from the value without passing through
a slice or a map: the value itself is none, and neither is any field of it, if it is a
struct, at any depth of nested structs. -/
def selfComparable : Value → Bool
  | .float64 x => x.isSome
  | .func addr => addr == 0
  | .struct fields => selfComparableFields fields
  | _ => true
termination_by structural x => x
/-- The fields of a struct are `selfComparable`. -/
def selfComparableFields : List (String × Value) → Bool
  | [] => true
  | (_, x) :: rest => selfComparable x && selfComparableFields rest
termination_by structural x => x
end

/-! ## Dynamic types and the equality of the specification -/

/-- The dynamic types of the values of the fragment. `nilInterface` stands for the nil
interface, which has no dynamic type; `named typ` is the defined type of that name; a
struct type is given by the names and the types of its fields. -/
inductive GoType where
  | nilInterface
  | bool
  | int
  | int32
  | float64
  | string
  | errorString
  | named (typ : String)
  | func
  | slice
  | map
  | struct (fields : List (String × GoType))

mutual
/-- Go's `reflect.TypeOf(x)` on the fragment. -/
def typeOf : Value → GoType
  | .nil => .nilInterface
  | .bool _ => .bool
  | .int _ => .int
  | .int32 _ => .int32
  | .float64 _ => .float64
  | .str _ => .string
  | .err _ => .errorString
  | .formatter typ _ _ => .named typ
  | .func _ => .func
  | .nilSlice => .slice
  | .slice _ _ => .slice
  | .nilMap => .map
  | .map _ _ => .map
  | .struct fields => .struct (typeOfFields fields)
termination_by structural x => x
/-- The names and types of the fields of a struct value. -/
def typeOfFields : List (String × Value) → List (String × GoType)
  | [] => []
  | (name, x) :: rest => (name, typeOf x) :: typeOfFields rest
termination_by structural x => x
end

mutual
/-- The equality of the specification, following its words: two values are equal when their
types match and every nested field or element is recursively equal. A scalar, a string, an
error text or a function value has no nested part and equals only itself (as a value: a NaN
is the same value as a NaN); a slice is compared element by element, a map key by key, a
struct field by field. Nothing else is looked at: a nil slice or map has the same elements
as an empty one, and addresses play no role. -/
def specEqual : Value → Value → Bool
  | .nil, .nil => true
  | .bool a, .bool b => a == b
  | .int a, .int b => a == b
  | .int32 a, .int32 b => a == b
  | .float64 a, .float64 b => a == b
  | .str a, .str b => a == b
  | .err a, .err b => a == b
  | .formatter t1 _ _, .formatter t2 _ _ => t1 == t2
  | .func a, .func b => a == b
  | .nilSlice, .nilSlice => true
  | .nilSlice, .slice _ ys => ys.isEmpty
  | .slice _ xs, .nilSlice => xs.isEmpty
  | .slice _ xs, .slice _ ys => specEqualElems xs ys
  | .nilMap, .nilMap => true
  | .nilMap, .map _ m2 => m2.isEmpty
  | .map _ m1, .nilMap => m1.isEmpty
  | .map _ m1, .map _ m2 => m1.length == m2.length && specEqualEntries m1 m2
  | .struct f1, .struct f2 => specEqualFields f1 f2
  | _, _ => false
termination_by structural x => x
/-- The specification's equality on the elements of two slices. -/
def specEqualElems : List Value → List Value → Bool
  | [], [] => true
  | x :: xs, y :: ys => specEqual x y && specEqualElems xs ys
  | _, _ => false
termination_by structural x => x
/-- The specification's equality on the entries of two maps: every key of the first map is
present in the second with an equal value. -/
def specEqualEntries : List (String × Value) → List (String × Value) → Bool
  | [], _ => true
  | (k, x) :: rest, m2 =>
    (match mapIndex k m2 with
      | some y => specEqual x y
      | none => false) && specEqualEntries rest m2
termination_by structural x => x
/-- The specification's equality on the fields of two struct values. -/
def specEqualFields : List (String × Value) → List (String × Value) → Bool
  | [], [] => true
  | (n1, x) :: xs, (n2, y) :: ys => n1 == n2 && specEqual x y && specEqualFields xs ys
  | _, _ => false
termination_by structural x => x
end

end Assert

/-! ## Create modes: round trip and rejection -/

namespace CreateMode

theorem strContains_append_left (a b : String) : strContains (a ++ b) a := by
  unfold strContains
  exact ⟨[], b.data, by simp [String.data_append]⟩

theorem invalidFlagText_contains (flag : Int) :
    strContains (invalidFlagText flag) "invalid flag value" := by
  have h : invalidFlagText flag = "invalid flag value" ++ (": " ++ toString flag) := by
    unfold invalidFlagText
    apply String.ext
    simp [String.data_append]
  rw [h]
  exact strContains_append_left _ _

/-- C1: for every integer `f` from 0 to 6, `parseCreateMode f` succeeds, and the flag of the
mode it returns is `f` again. -/
theorem parseCreateMode_roundtrip (f : Int) (h0 : 0 ≤ f) (h6 : f ≤ 6) :
    ∃ mode, parseCreateMode f = .ok mode ∧ mode.toFlag = f := by
  interval_cases f <;> exact ⟨_, rfl, rfl⟩

theorem parseCreateMode_roundtrip_witness :
    (0 : Int) ≤ 3 ∧ (3 : Int) ≤ 6 ∧
      ∃ mode, parseCreateMode 3 = .ok mode ∧ mode.toFlag = 3 :=
  ⟨by decide, by decide, parseCreateMode_roundtrip 3 (by decide) (by decide)⟩

/-- C2: for every integer `f` outside 0..6, negative numbers included (so in particular for
every such signed 32-bit integer), `parseCreateMode f` returns an error, and the text of the
error contains "invalid flag value". -/
theorem parseCreateMode_rejects (f : Int) (h : f < 0 ∨ 6 < f) :
    ∃ text, parseCreateMode f = .error text ∧ strContains text "invalid flag value" := by
  refine ⟨invalidFlagText f, ?_, invalidFlagText_contains f⟩
  have h0 : f ≠ 0 := by omega
  have h1 : f ≠ 1 := by omega
  have h2 : f ≠ 2 := by omega
  have h3 : f ≠ 3 := by omega
  have h4 : f ≠ 4 := by omega
  have h5 : f ≠ 5 := by omega
  have h6 : f ≠ 6 := by omega
  simp [parseCreateMode, FlagPersistent, FlagEphemeral, FlagSequence, FlagEphemeralSequential,
    FlagContainer, FlagTTL, FlagPersistentSequentialWithTTL, h0, h1, h2, h3, h4, h5, h6]

theorem parseCreateMode_rejects_witness :
    ((-123 : Int) < 0 ∨ (6 : Int) < -123) ∧
      ∃ text, parseCreateMode (-123) = .error text ∧ strContains text "invalid flag value" :=
  ⟨by decide, parseCreateMode_rejects (-123) (by decide)⟩

end CreateMode

/-! ## The assertions: what is reported, and when -/

namespace Assert

theorem Sprintf_plusV (o : FmtOracle) (x : Value) : Sprintf o "%+v" [x] = render o x := by
  simp [Sprintf, doPrintf, extraString, render]

theorem Sprintf_not_equal (o : FmtOracle) (want got : Value) :
    Sprintf o "not equal: want: %+v, got: %+v" [want, got]
      = "not equal: want: " ++ render o want ++ ", got: " ++ render o got := by
  simp [Sprintf, doPrintf, extraString, render]
  apply String.ext
  simp [String.data_append]

theorem Sprintf_unexpected_error (o : FmtOracle) (x : Value) :
    Sprintf o "unexpected error: %v" [x] = "unexpected error: " ++ printArg o .v x := by
  simp [Sprintf, doPrintf, extraString]
  apply String.ext
  simp [String.data_append]

theorem printArg_errorString (o : FmtOracle) (text : String) :
    printArg o .v (ErrorValue.errorString text).toValue = text := rfl

theorem printArg_formatter (o : FmtOracle) (typ text : String) (formatted : Verb → String) :
    printArg o .v (ErrorValue.formatter typ text formatted).toValue = formatted .v := rfl

theorem fail_eq {σ : Type} (o : FmtOracle) (t : TestingT σ) (s : σ) (message : String)
    (msgAndArgs : List Value) :
    fail o t s message msgAndArgs
      = t.Errorf (t.Helper s) (message ++ optionalSuffix o msgAndArgs) [] := by
  unfold fail optionalSuffix
  by_cases h : msgAndArgsToString o msgAndArgs = ""
  · simp [h]
  · simp [h]

theorem Equal_of_not_deepEqual {σ : Type} (o : FmtOracle) (t : TestingT σ) (s : σ)
    (want got : Value) (msgAndArgs : List Value) (h : deepEqual want got = false) :
    Equal o t s want got msgAndArgs
      = t.Errorf (t.Helper s)
          ("not equal: want: " ++ render o want ++ ", got: " ++ render o got
            ++ optionalSuffix o msgAndArgs) [] := by
  simp [Equal, h, fail_eq, Sprintf_not_equal]

theorem NoError_of_error {σ : Type} (o : FmtOracle) (t : TestingT σ) (s : σ)
    (e : ErrorValue) (msgAndArgs : List Value) :
    NoError o t s (some e) msgAndArgs
      = t.Errorf (t.Helper s)
          ("unexpected error: " ++ printArg o .v e.toValue ++ optionalSuffix o msgAndArgs)
          [] := by
  simp [NoError, GoError.toValue, fail_eq, Sprintf_unexpected_error]

theorem NoError_of_errorString {σ : Type} (o : FmtOracle) (t : TestingT σ) (s : σ)
    (text : String) (msgAndArgs : List Value) :
    NoError o t s (some (.errorString text)) msgAndArgs
      = t.Errorf (t.Helper s)
          ("unexpected error: " ++ text ++ optionalSuffix o msgAndArgs) [] := by
  rw [NoError_of_error, printArg_errorString]

/-- C3: when `want` and `got` are not deeply equal, `Equal` makes exactly two reporter calls,
`Helper` first and then one `Errorf` with no further arguments, for every reporter; the
recording reporter keeps the calls recorded before and appends these two; the message is
"not equal: want: " followed by the rendering of `want`, ", got: ", the rendering of `got`
and the optional-message suffix; for want = 1, got = 2 and no message arguments it is
"not equal: want: 1, got: 2". -/
theorem Equal_reports_not_equal {σ : Type} (o : FmtOracle) (t : TestingT σ) (s : σ)
    (f : fakeT) (want got : Value) (msgAndArgs : List Value)
    (h : deepEqual want got = false) :
    Equal o t s want got msgAndArgs
        = t.Errorf (t.Helper s)
            ("not equal: want: " ++ render o want ++ ", got: " ++ render o got
              ++ optionalSuffix o msgAndArgs) []
      ∧ (Equal o fakeT.reporter f want got msgAndArgs).calls
        = f.calls ++ [⟨"Helper", []⟩,
            ⟨"Errorf", [Value.str ("not equal: want: " ++ render o want ++ ", got: "
              ++ render o got ++ optionalSuffix o msgAndArgs)]⟩]
      ∧ (Equal o fakeT.reporter ⟨[]⟩ (.int 1) (.int 2) []).calls
        = [⟨"Helper", []⟩, ⟨"Errorf", [Value.str "not equal: want: 1, got: 2"]⟩] := by
  refine ⟨Equal_of_not_deepEqual o t s want got msgAndArgs h, ?_, rfl⟩
  rw [Equal_of_not_deepEqual o fakeT.reporter f want got msgAndArgs h]
  simp [fakeT.reporter, fakeT.Errorf, fakeT.Helper]

theorem Equal_reports_not_equal_witness :
    deepEqual (.int 1) (.str "1") = false
      ∧ (Equal FmtOracle.blank fakeT.reporter ⟨[⟨"Helper", []⟩]⟩ (.int 1) (.str "1")
          [Value.str "id %d", Value.int 7]).calls
        = [⟨"Helper", []⟩, ⟨"Helper", []⟩,
            ⟨"Errorf", [Value.str "not equal: want: 1, got: 1: id 7"]⟩] :=
  ⟨by decide,
    (Equal_reports_not_equal FmtOracle.blank fakeT.reporter ⟨[⟨"Helper", []⟩]⟩
      ⟨[⟨"Helper", []⟩]⟩ (.int 1) (.str "1") [Value.str "id %d", Value.int 7]
      (by decide)).2.1⟩

/-- C4: when `want` and `got` are deeply equal, `Equal` makes no call to the reporter: the
state of every reporter, and so the calls recorded by the recording reporter, are the same
before and after, whatever the message arguments. -/
theorem Equal_silent_when_equal {σ : Type} (o : FmtOracle) (t : TestingT σ) (s : σ)
    (f : fakeT) (want got : Value) (msgAndArgs : List Value)
    (h : deepEqual want got = true) :
    Equal o t s want got msgAndArgs = s
      ∧ (Equal o fakeT.reporter f want got msgAndArgs).calls = f.calls := by
  simp [Equal, h]

theorem Equal_silent_when_equal_witness :
    deepEqual (.slice 10 [.int 1, .str "a"]) (.slice 20 [.int 1, .str "a"]) = true
      ∧ (Equal FmtOracle.blank fakeT.reporter ⟨[⟨"Helper", []⟩]⟩
          (.slice 10 [.int 1, .str "a"]) (.slice 20 [.int 1, .str "a"])
          [Value.str "m"]).calls
        = [⟨"Helper", []⟩] :=
  ⟨by decide,
    (Equal_silent_when_equal FmtOracle.blank fakeT.reporter ⟨[⟨"Helper", []⟩]⟩
      ⟨[⟨"Helper", []⟩]⟩ (.slice 10 [.int 1, .str "a"]) (.slice 20 [.int 1, .str "a"])
      [Value.str "m"] (by decide)).2⟩

/-- C5, as stated, fails: `%v` hands an error whose type implements `fmt.Formatter` to its
`Format` method and never calls `Error()`, so for such an error whose `Error()` returns "E"
and whose `Format` writes "F" the message is "unexpected error: F", not
"unexpected error: E". -/
theorem NoError_formatter_message_is_not_Error :
    (ErrorValue.formatter "main.fmtErr" "E" (fun _ => "F")).Error = "E"
      ∧ (NoError FmtOracle.blank fakeT.reporter ⟨[]⟩
          (some (.formatter "main.fmtErr" "E" (fun _ => "F"))) []).calls
        = [⟨"Helper", []⟩, ⟨"Errorf", [Value.str "unexpected error: F"]⟩]
      ∧ "unexpected error: F" ≠ "unexpected error: " ++ "E" :=
  ⟨rfl, rfl, by decide⟩

/-- C5 (amended): for every non-nil error, `NoError` makes exactly two reporter calls,
`Helper` first and then one `Errorf` with no further arguments, for every reporter and every
message arguments; the message is "unexpected error: " followed by what `%v` prints for the
error and by the optional-message suffix; `%v` prints the `Error()` text of an error made by
`errors.New`, and what the `Format` method writes for an error whose type implements
`fmt.Formatter`; for the `errors.New` error with text "foo" and no message arguments the
recording reporter records exactly `Helper` and `Errorf` with "unexpected error: foo". -/
theorem NoError_reports_error {σ : Type} (o : FmtOracle) (t : TestingT σ) (s : σ)
    (f : fakeT) (e : ErrorValue) (typ text : String) (formatted : Verb → String)
    (msgAndArgs : List Value) :
    NoError o t s (some e) msgAndArgs
        = t.Errorf (t.Helper s)
            ("unexpected error: " ++ printArg o .v e.toValue
              ++ optionalSuffix o msgAndArgs) []
      ∧ (NoError o fakeT.reporter f (some e) msgAndArgs).calls
        = f.calls ++ [⟨"Helper", []⟩,
            ⟨"Errorf", [Value.str ("unexpected error: " ++ printArg o .v e.toValue
              ++ optionalSuffix o msgAndArgs)]⟩]
      ∧ printArg o .v (ErrorValue.errorString text).toValue
        = (ErrorValue.errorString text).Error
      ∧ printArg o .v (ErrorValue.formatter typ text formatted).toValue = formatted .v
      ∧ (NoError o fakeT.reporter ⟨[]⟩ (some (.errorString "foo")) []).calls
        = [⟨"Helper", []⟩, ⟨"Errorf", [Value.str "unexpected error: foo"]⟩] := by
  refine ⟨NoError_of_error o t s e msgAndArgs, ?_, rfl, rfl, rfl⟩
  rw [NoError_of_error o fakeT.reporter f e msgAndArgs]
  simp [fakeT.reporter, fakeT.Errorf, fakeT.Helper]

/-- C6: for the nil error, `NoError` makes no call to the reporter: the state of every
reporter, and so the calls recorded by the recording reporter, are the same before and
after, whatever the message arguments. -/
theorem NoError_silent_on_nil {σ : Type} (o : FmtOracle) (t : TestingT σ) (s : σ)
    (f : fakeT) (msgAndArgs : List Value) :
    NoError o t s none msgAndArgs = s
      ∧ (NoError o fakeT.reporter f none msgAndArgs).calls = f.calls := by
  simp [NoError]

/-! ## The optional message -/

theorem render_slice (o : FmtOracle) (ptr : Nat) (elems : List Value) (parts : List String)
    (h : printElems .plusV elems = some parts) :
    render o (.slice ptr elems) = "[" ++ joinWith " " parts ++ "]" := by
  simp [render, printArg, printArgCore, printValue, h]

theorem render_str (o : FmtOracle) (text : String) : render o (.str text) = text := by
  simp [render, printArg, printArgCore, printValue, fmtString]

theorem optionalSuffix_nil (o : FmtOracle) : optionalSuffix o [] = "" := by
  simp [optionalSuffix, msgAndArgsToString]

/-- C7: for message arguments of two or more elements whose first element is a string
`format`, the rendered optional message is `Sprintf(format, rest...)`, the first element
used as a template for the remaining ones; the template "user message: %d %s" with 1 and
"arg2" gives "user message: 1 arg2", and `Equal(r, 1, 2, "user message: %d %s", 1, "arg2")`
reports "not equal: want: 1, got: 2: user message: 1 arg2". -/
theorem msgAndArgsToString_template (o : FmtOracle) (msgAndArgs : List Value)
    (format : String) (h2 : 2 ≤ msgAndArgs.length)
    (hs : msgAndArgs.head? = some (Value.str format)) :
    msgAndArgsToString o msgAndArgs = Sprintf o format (msgAndArgs.drop 1)
      ∧ msgAndArgsToString o [.str "user message: %d %s", .int 1, .str "arg2"]
        = "user message: 1 arg2"
      ∧ (Equal o fakeT.reporter ⟨[]⟩ (.int 1) (.int 2)
          [.str "user message: %d %s", .int 1, .str "arg2"]).calls
        = [⟨"Helper", []⟩,
            ⟨"Errorf", [Value.str "not equal: want: 1, got: 2: user message: 1 arg2"]⟩] := by
  refine ⟨?_, rfl, rfl⟩
  match msgAndArgs, h2, hs with
  | a :: b :: rest, _, hs =>
    simp only [List.head?_cons, Option.some.injEq] at hs
    subst hs
    simp [msgAndArgsToString]

theorem msgAndArgsToString_template_witness :
    2 ≤ [Value.str "%v-%s", Value.nil, Value.str "x"].length
      ∧ [Value.str "%v-%s", Value.nil, Value.str "x"].head? = some (Value.str "%v-%s")
      ∧ msgAndArgsToString FmtOracle.blank [Value.str "%v-%s", Value.nil, Value.str "x"]
        = Sprintf FmtOracle.blank "%v-%s" [Value.nil, Value.str "x"] :=
  ⟨by decide, rfl,
    (msgAndArgsToString_template FmtOracle.blank
      [Value.str "%v-%s", Value.nil, Value.str "x"] "%v-%s" (by decide) rfl).1⟩

/-- C8: for message arguments of two or more elements whose first element is not a string,
the rendered optional message is the `%+v` rendering of the whole list as one slice: the
renderings of the elements, in order, separated by spaces and enclosed in brackets; no
element is used as a template, so a later string with format verbs is printed as it is; and
`Equal(r, 1, 2, 1, "arg2")` reports "not equal: want: 1, got: 2: [1 arg2]". -/
theorem msgAndArgsToString_whole_list (o : FmtOracle) (msgAndArgs : List Value)
    (h2 : 2 ≤ msgAndArgs.length)
    (hs : ∀ format : String, msgAndArgs.head? ≠ some (Value.str format)) :
    msgAndArgsToString o msgAndArgs = render o (.slice variadicAddr msgAndArgs)
      ∧ (∀ parts : List String, printElems .plusV msgAndArgs = some parts →
          msgAndArgsToString o msgAndArgs = "[" ++ joinWith " " parts ++ "]")
      ∧ msgAndArgsToString o [.int 1, .str "%d %s", .int 2] = "[1 %d %s 2]"
      ∧ (Equal o fakeT.reporter ⟨[]⟩ (.int 1) (.int 2) [.int 1, .str "arg2"]).calls
        = [⟨"Helper", []⟩,
            ⟨"Errorf", [Value.str "not equal: want: 1, got: 2: [1 arg2]"]⟩] := by
  have key : msgAndArgsToString o msgAndArgs
      = render o (.slice variadicAddr msgAndArgs) := by
    match msgAndArgs, h2, hs with
    | a :: b :: rest, _, hs =>
      cases a with
      | str format => exact absurd rfl (hs format)
      | _ => simp [msgAndArgsToString, Sprintf_plusV]
  refine ⟨key, ?_, rfl, rfl⟩
  intro parts hparts
  rw [key, render_slice o variadicAddr msgAndArgs parts hparts]

theorem msgAndArgsToString_whole_list_witness :
    2 ≤ [Value.bool true, Value.str "%d", Value.nilSlice].length
      ∧ (∀ format : String,
          [Value.bool true, Value.str "%d", Value.nilSlice].head? ≠ some (Value.str format))
      ∧ msgAndArgsToString FmtOracle.blank [Value.bool true, Value.str "%d", Value.nilSlice]
        = "[true %d []]" :=
  ⟨by decide, (by intro format h; cases h),
    (msgAndArgsToString_whole_list FmtOracle.blank
      [Value.bool true, Value.str "%d", Value.nilSlice] (by decide)
      (by intro format h; cases h)).2.1 ["true", "%d", "[]"] rfl⟩

/-- C9: for a one-element list `[m]` the rendered optional message is the default structural
rendering of `m`; `m` is never used as a template, so for a string `m` the rendering is `m`
itself, format verbs included; and `Equal(r, 1, 2, "user message")` reports
"not equal: want: 1, got: 2: user message". -/
theorem msgAndArgsToString_single (o : FmtOracle) (m : Value) (text : String) :
    msgAndArgsToString o [m] = render o m
      ∧ msgAndArgsToString o [.str text] = text
      ∧ msgAndArgsToString o [.str "100%d of %s"] = "100%d of %s"
      ∧ (Equal o fakeT.reporter ⟨[]⟩ (.int 1) (.int 2) [.str "user message"]).calls
        = [⟨"Helper", []⟩,
            ⟨"Errorf", [Value.str "not equal: want: 1, got: 2: user message"]⟩] := by
  refine ⟨?_, ?_, rfl, rfl⟩
  · simp [msgAndArgsToString, Sprintf_plusV]
  · simp [msgAndArgsToString, Sprintf_plusV, render_str]

/-- C10: for empty message arguments the rendered optional message is the empty string and
nothing is appended: a failing `Equal` reports exactly "not equal: want: ..., got: ..." and
a failing `NoError` reports exactly "unexpected error: ...", with nothing after the base
message. -/
theorem msgAndArgsToString_empty {σ : Type} (o : FmtOracle) (t : TestingT σ) (s : σ)
    (want got : Value) (text : String) (h : deepEqual want got = false) :
    msgAndArgsToString o [] = ""
      ∧ Equal o t s want got []
        = t.Errorf (t.Helper s)
            ("not equal: want: " ++ render o want ++ ", got: " ++ render o got) []
      ∧ NoError o t s (some (.errorString text)) []
        = t.Errorf (t.Helper s) ("unexpected error: " ++ text) []
      ∧ ∀ e : ErrorValue, NoError o t s (some e) []
        = t.Errorf (t.Helper s) ("unexpected error: " ++ printArg o .v e.toValue) [] := by
  refine ⟨rfl, ?_, ?_, ?_⟩
  · rw [Equal_of_not_deepEqual o t s want got [] h, optionalSuffix_nil]
    simp
  · rw [NoError_of_errorString o t s text [], optionalSuffix_nil]
    simp
  · intro e
    rw [NoError_of_error o t s e [], optionalSuffix_nil]
    simp

theorem msgAndArgsToString_empty_witness :
    deepEqual (.str "a") (.str "b") = false
      ∧ (Equal FmtOracle.blank fakeT.reporter ⟨[]⟩ (.str "a") (.str "b") []).calls
        = [⟨"Helper", []⟩, ⟨"Errorf", [Value.str "not equal: want: a, got: b"]⟩] :=
  ⟨by decide,
    congrArg fakeT.calls
      (msgAndArgsToString_empty FmtOracle.blank fakeT.reporter ⟨[]⟩ (.str "a") (.str "b")
        "e" (by decide)).2.1⟩

/-! ## `reflect.DeepEqual`: types, one value against itself, symmetry -/

theorem mapIndex_of_mem : ∀ (m : List (String × Value)) (k : String) (x : Value),
    keysDistinct m = true → (k, x) ∈ m → mapIndex k m = some x
  | [], _, _, _, h => by cases h
  | (k0, x0) :: rest, k, x, hd, h => by
    have hnd : ((k0, x0) :: rest).map Prod.fst |>.Nodup := of_decide_eq_true hd
    rw [List.map_cons, List.nodup_cons] at hnd
    show (if k0 = k then some x0 else mapIndex k rest) = some x
    rcases List.mem_cons.mp h with heq | hmem
    · cases heq
      simp
    · have hk : k0 ≠ k := by
        intro hk
        apply hnd.1
        rw [hk]
        exact List.mem_map.mpr ⟨(k, x), hmem, rfl⟩
      rw [if_neg hk]
      exact mapIndex_of_mem rest k x (decide_eq_true hnd.2) hmem

theorem mem_of_mapIndex : ∀ (m : List (String × Value)) (k : String) (x : Value),
    mapIndex k m = some x → (k, x) ∈ m
  | [], _, _, h => by cases h
  | (k0, x0) :: rest, k, x, h => by
    have h1 : (if k0 = k then some x0 else mapIndex k rest) = some x := h
    by_cases hk : k0 = k
    · rw [if_pos hk] at h1
      cases h1
      rw [hk]
      exact List.mem_cons_self _ _
    · rw [if_neg hk] at h1
      exact List.mem_cons_of_mem _ (mem_of_mapIndex rest k x h1)

mutual
theorem deepEqual_typeOf : ∀ x y : Value, deepEqual x y = true → typeOf x = typeOf y
  | .nil, y, h => by cases y <;> first | rfl | exact absurd h Bool.false_ne_true
  | .bool _, y, h => by cases y <;> first | rfl | exact absurd h Bool.false_ne_true
  | .int _, y, h => by cases y <;> first | rfl | exact absurd h Bool.false_ne_true
  | .int32 _, y, h => by cases y <;> first | rfl | exact absurd h Bool.false_ne_true
  | .float64 _, y, h => by cases y <;> first | rfl | exact absurd h Bool.false_ne_true
  | .str _, y, h => by cases y <;> first | rfl | exact absurd h Bool.false_ne_true
  | .err _, y, h => by cases y <;> first | rfl | exact absurd h Bool.false_ne_true
  | .formatter t1 _ _, y, h => by
    cases y with
    | formatter t2 _ _ => exact congrArg GoType.named (beq_iff_eq.mp h)
    | _ => exact absurd h Bool.false_ne_true
  | .func _, y, h => by cases y <;> first | rfl | exact absurd h Bool.false_ne_true
  | .nilSlice, y, h => by cases y <;> first | rfl | exact absurd h Bool.false_ne_true
  | .slice _ _, y, h => by cases y <;> first | rfl | exact absurd h Bool.false_ne_true
  | .nilMap, y, h => by cases y <;> first | rfl | exact absurd h Bool.false_ne_true
  | .map _ _, y, h => by cases y <;> first | rfl | exact absurd h Bool.false_ne_true
  | .struct f1, y, h => by
    cases y with
    | struct f2 => exact congrArg GoType.struct (deepEqualFields_typeOf f1 f2 h)
    | _ => exact absurd h Bool.false_ne_true
termination_by structural x => x
theorem deepEqualFields_typeOf : ∀ f1 f2 : List (String × Value),
    deepEqualFields f1 f2 = true → typeOfFields f1 = typeOfFields f2
  | [], f2, h => by cases f2 <;> first | rfl | exact absurd h Bool.false_ne_true
  | (n1, x) :: xs, f2, h => by
    cases f2 with
    | nil => exact absurd h Bool.false_ne_true
    | cons p ys =>
      obtain ⟨n2, y⟩ := p
      have h1 : (n1 == n2 && deepEqual x y && deepEqualFields xs ys) = true := h
      simp only [Bool.and_eq_true, beq_iff_eq] at h1
      obtain ⟨⟨hn, hx⟩, hrest⟩ := h1
      show (n1, typeOf x) :: typeOfFields xs = (n2, typeOf y) :: typeOfFields ys
      rw [hn, deepEqual_typeOf x y hx, deepEqualFields_typeOf xs ys hrest]
termination_by structural x => x
end

theorem floatEq_self (a : Option ℚ) : floatEq a a = a.isSome := by
  cases a with
  | none => rfl
  | some q => exact beq_self_eq_true q

theorem floatEq_comm (a b : Option ℚ) : floatEq a b = floatEq b a := by
  cases a with
  | none => cases b <;> rfl
  | some p =>
    cases b with
    | none => rfl
    | some q =>
      show (p == q) = (q == p)
      by_cases h : p = q
      · rw [h]
      · have h1 : (p == q) = false := beq_eq_false_iff_ne.mpr h
        have h2 : (q == p) = false := beq_eq_false_iff_ne.mpr (Ne.symm h)
        rw [h1, h2]

mutual
theorem deepEqual_self_eq : ∀ x : Value, deepEqual x x = selfComparable x
  | .nil => rfl
  | .bool b => beq_self_eq_true b
  | .int n => beq_self_eq_true n
  | .int32 n => beq_self_eq_true n
  | .float64 a => floatEq_self a
  | .str s => beq_self_eq_true s
  | .err s => beq_self_eq_true s
  | .formatter typ _ _ => beq_self_eq_true typ
  | .func a => by
    show (a == 0 && a == 0) = (a == 0)
    exact Bool.and_self _
  | .nilSlice => rfl
  | .slice p xs => by
    show (xs.length == xs.length && (p == p || deepEqualElems xs xs)) = true
    rw [beq_self_eq_true, beq_self_eq_true]
    rfl
  | .nilMap => rfl
  | .map p m => by
    show (m.length == m.length && (p == p || deepEqualEntries m m)) = true
    rw [beq_self_eq_true, beq_self_eq_true]
    rfl
  | .struct fs => deepEqualFields_self_eq fs
termination_by structural x => x
theorem deepEqualFields_self_eq : ∀ fs : List (String × Value),
    deepEqualFields fs fs = selfComparableFields fs
  | [] => rfl
  | (n, x) :: xs => by
    show (n == n && deepEqual x x && deepEqualFields xs xs)
      = (selfComparable x && selfComparableFields xs)
    rw [beq_self_eq_true, deepEqual_self_eq x, deepEqualFields_self_eq xs, Bool.true_and]
termination_by structural x => x
end

theorem deepEqualEntries_iff : ∀ rest m2 : List (String × Value),
    deepEqualEntries rest m2 = true ↔
      ∀ p ∈ rest, ∃ y, mapIndex p.1 m2 = some y ∧ deepEqual p.2 y = true
  | [], m2 => by
    constructor
    · intro _ p hp
      cases hp
    · intro _
      rfl
  | (k, x) :: rest, m2 => by
    have ih := deepEqualEntries_iff rest m2
    have hdef : deepEqualEntries ((k, x) :: rest) m2
        = ((match mapIndex k m2 with
          | some y => deepEqual x y
          | none => false) && deepEqualEntries rest m2) := rfl
    rw [hdef, Bool.and_eq_true, ih]
    constructor
    · rintro ⟨h1, h2⟩ p hp
      rcases List.mem_cons.mp hp with heq | hmem
      · subst heq
        cases hidx : mapIndex k m2 with
        | none => rw [hidx] at h1; exact absurd h1 Bool.false_ne_true
        | some y => rw [hidx] at h1; exact ⟨y, rfl, h1⟩
      · exact h2 p hmem
    · intro h
      refine ⟨?_, fun p hp => h p (List.mem_cons_of_mem _ hp)⟩
      obtain ⟨y, hy, hxy⟩ := h (k, x) (List.mem_cons_self _ _)
      have hy1 : mapIndex k m2 = some y := hy
      rw [hy1]
      exact hxy

theorem wellFormed_of_mem : ∀ (m : List (String × Value)) (p : String × Value),
    wellFormedEntries m = true → p ∈ m → wellFormed p.2 = true
  | [], _, _, hp => by cases hp
  | (k, x) :: rest, p, hw, hp => by
    have hw1 : (wellFormed x && wellFormedEntries rest) = true := hw
    rw [Bool.and_eq_true] at hw1
    rcases List.mem_cons.mp hp with heq | hmem
    · subst heq
      exact hw1.1
    · exact wellFormed_of_mem rest p hw1.2 hmem

theorem deepEqualEntries_symm_of_members (m1 m2 : List (String × Value))
    (hd1 : keysDistinct m1 = true) (hd2 : keysDistinct m2 = true)
    (hlen : m1.length = m2.length) (hw2 : wellFormedEntries m2 = true)
    (ih : ∀ p ∈ m1, ∀ y, wellFormed y = true → deepEqual p.2 y = true → deepEqual y p.2 = true)
    (h : deepEqualEntries m1 m2 = true) : deepEqualEntries m2 m1 = true := by
  rw [deepEqualEntries_iff] at h ⊢
  have hn1 : (m1.map Prod.fst).Nodup := of_decide_eq_true hd1
  have hsub : m1.map Prod.fst ⊆ m2.map Prod.fst := by
    intro k hk
    obtain ⟨p, hp, rfl⟩ := List.mem_map.mp hk
    obtain ⟨y, hy, _⟩ := h p hp
    exact List.mem_map.mpr ⟨(p.1, y), mem_of_mapIndex m2 p.1 y hy, rfl⟩
  have hperm : (m1.map Prod.fst).Perm (m2.map Prod.fst) :=
    (List.subperm_of_subset hn1 hsub).perm_of_length_le (by simp [hlen])
  intro q hq
  have hk : q.1 ∈ m1.map Prod.fst :=
    hperm.mem_iff.mpr (List.mem_map.mpr ⟨q, hq, rfl⟩)
  obtain ⟨p, hp, hpq⟩ := List.mem_map.mp hk
  obtain ⟨y, hy, hxy⟩ := h p hp
  have hq2 : mapIndex p.1 m2 = some q.2 := by
    rw [hpq]
    exact mapIndex_of_mem m2 q.1 q.2 hd2 hq
  have hyq : y = q.2 := Option.some.inj (hy.symm.trans hq2)
  subst hyq
  refine ⟨p.2, ?_, ih p hp q.2 (wellFormed_of_mem m2 q hw2 hq) hxy⟩
  rw [← hpq]
  exact mapIndex_of_mem m1 p.1 p.2 hd1 hp

mutual
theorem deepEqual_symm_true : ∀ x y : Value,
    wellFormed x = true → wellFormed y = true → deepEqual x y = true → deepEqual y x = true
  | .nil, y, _, _, h => by cases y <;> first | rfl | exact absurd h Bool.false_ne_true
  | .bool a, y, _, _, h => by
    cases y with
    | bool b => exact beq_iff_eq.mpr (beq_iff_eq.mp h).symm
    | _ => exact absurd h Bool.false_ne_true
  | .int a, y, _, _, h => by
    cases y with
    | int b => exact beq_iff_eq.mpr (beq_iff_eq.mp h).symm
    | _ => exact absurd h Bool.false_ne_true
  | .int32 a, y, _, _, h => by
    cases y with
    | int32 b => exact beq_iff_eq.mpr (beq_iff_eq.mp h).symm
    | _ => exact absurd h Bool.false_ne_true
  | .float64 a, y, _, _, h => by
    cases y with
    | float64 b =>
      have h1 : floatEq a b = true := h
      show floatEq b a = true
      rw [floatEq_comm]
      exact h1
    | _ => exact absurd h Bool.false_ne_true
  | .formatter t1 _ _, y, _, _, h => by
    cases y with
    | formatter t2 _ _ => exact beq_iff_eq.mpr (beq_iff_eq.mp h).symm
    | _ => exact absurd h Bool.false_ne_true
  | .str a, y, _, _, h => by
    cases y with
    | str b => exact beq_iff_eq.mpr (beq_iff_eq.mp h).symm
    | _ => exact absurd h Bool.false_ne_true
  | .err a, y, _, _, h => by
    cases y with
    | err b => exact beq_iff_eq.mpr (beq_iff_eq.mp h).symm
    | _ => exact absurd h Bool.false_ne_true
  | .func a, y, _, _, h => by
    cases y with
    | func b =>
      have h1 : (a == 0 && b == 0) = true := h
      show (b == 0 && a == 0) = true
      rw [Bool.and_comm]
      exact h1
    | _ => exact absurd h Bool.false_ne_true
  | .nilSlice, y, _, _, h => by cases y <;> first | rfl | exact absurd h Bool.false_ne_true
  | .slice p xs, y, hx, hy, h => by
    cases y with
    | slice q ys =>
      have h1 : (xs.length == ys.length && (p == q || deepEqualElems xs ys)) = true := h
      rw [Bool.and_eq_true, Bool.or_eq_true] at h1
      show (ys.length == xs.length && (q == p || deepEqualElems ys xs)) = true
      rw [Bool.and_eq_true, Bool.or_eq_true]
      refine ⟨beq_iff_eq.mpr (beq_iff_eq.mp h1.1).symm, ?_⟩
      rcases h1.2 with hp | he
      · exact Or.inl (beq_iff_eq.mpr (beq_iff_eq.mp hp).symm)
      · exact Or.inr (deepEqualElems_symm_true xs ys hx hy he)
    | _ => exact absurd h Bool.false_ne_true
  | .nilMap, y, _, _, h => by cases y <;> first | rfl | exact absurd h Bool.false_ne_true
  | .map p m1, y, hx, hy, h => by
    cases y with
    | map q m2 =>
      have hx1 : (keysDistinct m1 && wellFormedEntries m1) = true := hx
      have hy1 : (keysDistinct m2 && wellFormedEntries m2) = true := hy
      have h1 : (m1.length == m2.length && (p == q || deepEqualEntries m1 m2)) = true := h
      rw [Bool.and_eq_true, Bool.or_eq_true] at h1
      rw [Bool.and_eq_true] at hx1 hy1
      have hlen : m1.length = m2.length := beq_iff_eq.mp h1.1
      show (m2.length == m1.length && (q == p || deepEqualEntries m2 m1)) = true
      rw [Bool.and_eq_true, Bool.or_eq_true]
      refine ⟨beq_iff_eq.mpr hlen.symm, ?_⟩
      rcases h1.2 with hp | he
      · exact Or.inl (beq_iff_eq.mpr (beq_iff_eq.mp hp).symm)
      · exact Or.inr (deepEqualEntries_symm_of_members m1 m2 hx1.1 hy1.1 hlen hy1.2
          (deepEqual_symm_members m1 hx1.2) he)
    | _ => exact absurd h Bool.false_ne_true
  | .struct f1, y, hx, hy, h => by
    cases y with
    | struct f2 => exact deepEqualFields_symm_true f1 f2 hx hy h
    | _ => exact absurd h Bool.false_ne_true
termination_by structural x => x
theorem deepEqualElems_symm_true : ∀ xs ys : List Value,
    wellFormedElems xs = true → wellFormedElems ys = true →
    deepEqualElems xs ys = true → deepEqualElems ys xs = true
  | [], ys, _, _, h => by cases ys <;> first | rfl | exact absurd h Bool.false_ne_true
  | x :: xs, ys, hx, hy, h => by
    cases ys with
    | nil => exact absurd h Bool.false_ne_true
    | cons y ys =>
      have hx1 : (wellFormed x && wellFormedElems xs) = true := hx
      have hy1 : (wellFormed y && wellFormedElems ys) = true := hy
      have h1 : (deepEqual x y && deepEqualElems xs ys) = true := h
      rw [Bool.and_eq_true] at hx1 hy1 h1
      show (deepEqual y x && deepEqualElems ys xs) = true
      rw [Bool.and_eq_true]
      exact ⟨deepEqual_symm_true x y hx1.1 hy1.1 h1.1,
        deepEqualElems_symm_true xs ys hx1.2 hy1.2 h1.2⟩
termination_by structural x => x
theorem deepEqual_symm_members : ∀ m1 : List (String × Value),
    wellFormedEntries m1 = true →
    ∀ p ∈ m1, ∀ y, wellFormed y = true → deepEqual p.2 y = true → deepEqual y p.2 = true
  | [], _, p, hp, _, _, _ => by cases hp
  | (k, x) :: rest, hw, p, hp, y, hy, h => by
    have hw1 : (wellFormed x && wellFormedEntries rest) = true := hw
    rw [Bool.and_eq_true] at hw1
    rcases List.mem_cons.mp hp with heq | hmem
    · subst heq
      exact deepEqual_symm_true x y hw1.1 hy h
    · exact deepEqual_symm_members rest hw1.2 p hmem y hy h
termination_by structural x => x
theorem deepEqualFields_symm_true : ∀ f1 f2 : List (String × Value),
    wellFormedEntries f1 = true → wellFormedEntries f2 = true →
    deepEqualFields f1 f2 = true → deepEqualFields f2 f1 = true
  | [], f2, _, _, h => by cases f2 <;> first | rfl | exact absurd h Bool.false_ne_true
  | (n1, x) :: xs, f2, hx, hy, h => by
    cases f2 with
    | nil => exact absurd h Bool.false_ne_true
    | cons q ys =>
      obtain ⟨n2, y⟩ := q
      have hx1 : (wellFormed x && wellFormedEntries xs) = true := hx
      have hy1 : (wellFormed y && wellFormedEntries ys) = true := hy
      have h1 : (n1 == n2 && deepEqual x y && deepEqualFields xs ys) = true := h
      rw [Bool.and_eq_true, Bool.and_eq_true] at h1
      rw [Bool.and_eq_true] at hx1 hy1
      show (n2 == n1 && deepEqual y x && deepEqualFields ys xs) = true
      rw [Bool.and_eq_true, Bool.and_eq_true]
      exact ⟨⟨beq_iff_eq.mpr (beq_iff_eq.mp h1.1.1).symm,
        deepEqual_symm_true x y hx1.1 hy1.1 h1.1.2⟩,
        deepEqualFields_symm_true xs ys hx1.2 hy1.2 h1.2⟩
termination_by structural x => x
end

theorem deepEqual_comm (x y : Value) (hx : wellFormed x = true) (hy : wellFormed y = true) :
    deepEqual x y = deepEqual y x := by
  cases hxy : deepEqual x y with
  | true => exact (deepEqual_symm_true x y hx hy hxy).symm
  | false =>
    cases hyx : deepEqual y x with
    | false => rfl
    | true =>
      rw [deepEqual_symm_true y x hy hx hyx] at hxy
      exact absurd hxy (by decide)

/-! ## `reflect.DeepEqual` implies the equality of the specification -/

mutual
theorem specEqual_self : ∀ x : Value, wellFormed x = true → specEqual x x = true
  | .nil, _ => rfl
  | .bool b, _ => beq_self_eq_true b
  | .int n, _ => beq_self_eq_true n
  | .int32 n, _ => beq_self_eq_true n
  | .float64 a, _ => beq_self_eq_true a
  | .str s, _ => beq_self_eq_true s
  | .err s, _ => beq_self_eq_true s
  | .formatter typ _ _, _ => beq_self_eq_true typ
  | .func a, _ => beq_self_eq_true a
  | .nilSlice, _ => rfl
  | .slice _ xs, hw => specEqualElems_self xs hw
  | .nilMap, _ => rfl
  | .map _ m, hw => by
    have hw1 : (keysDistinct m && wellFormedEntries m) = true := hw
    rw [Bool.and_eq_true] at hw1
    show (m.length == m.length && specEqualEntries m m) = true
    rw [beq_self_eq_true, Bool.true_and]
    exact specEqualEntries_self m m
      (fun p hp => mapIndex_of_mem m p.1 p.2 hw1.1 hp) hw1.2
  | .struct fs, hw => specEqualFields_self fs hw
termination_by structural x => x
theorem specEqualElems_self : ∀ xs : List Value,
    wellFormedElems xs = true → specEqualElems xs xs = true
  | [], _ => rfl
  | x :: xs, hw => by
    have hw1 : (wellFormed x && wellFormedElems xs) = true := hw
    rw [Bool.and_eq_true] at hw1
    show (specEqual x x && specEqualElems xs xs) = true
    rw [specEqual_self x hw1.1, specEqualElems_self xs hw1.2]
    rfl
termination_by structural x => x
theorem specEqualEntries_self : ∀ rest m : List (String × Value),
    (∀ p ∈ rest, mapIndex p.1 m = some p.2) →
    wellFormedEntries rest = true → specEqualEntries rest m = true
  | [], _, _, _ => rfl
  | (k, x) :: rest, m, hm, hw => by
    have hw1 : (wellFormed x && wellFormedEntries rest) = true := hw
    rw [Bool.and_eq_true] at hw1
    show ((match mapIndex k m with
        | some y => specEqual x y
        | none => false) && specEqualEntries rest m) = true
    rw [hm (k, x) (List.mem_cons_self _ _),
      specEqualEntries_self rest m (fun p hp => hm p (List.mem_cons_of_mem _ hp)) hw1.2]
    show (specEqual x x && true) = true
    rw [specEqual_self x hw1.1]
    rfl
termination_by structural x => x
theorem specEqualFields_self : ∀ fs : List (String × Value),
    wellFormedEntries fs = true → specEqualFields fs fs = true
  | [], _ => rfl
  | (n, x) :: xs, hw => by
    have hw1 : (wellFormed x && wellFormedEntries xs) = true := hw
    rw [Bool.and_eq_true] at hw1
    show (n == n && specEqual x x && specEqualFields xs xs) = true
    rw [beq_self_eq_true, specEqual_self x hw1.1, specEqualFields_self xs hw1.2]
    rfl
termination_by structural x => x
end

theorem storesAgree_mono {left right left1 right1 : List (Nat × Value)}
    (h : storesAgree left right) (hl : ∀ a ∈ left1, a ∈ left) (hr : ∀ b ∈ right1, b ∈ right) :
    storesAgree left1 right1 :=
  fun a ha b hb => h a (hl a ha) b (hr b hb)

theorem backing_mem_entries : ∀ (m : List (String × Value)) (p : String × Value),
    p ∈ m → ∀ a ∈ backing p.2, a ∈ backingEntries m
  | [], _, hp, _, _ => by cases hp
  | (k, x) :: rest, p, hp, a, ha => by
    show a ∈ backing x ++ backingEntries rest
    rcases List.mem_cons.mp hp with heq | hmem
    · subst heq
      exact List.mem_append_left _ ha
    · exact List.mem_append_right _ (backing_mem_entries rest p hmem a ha)

mutual
theorem deepEqual_specEqual : ∀ x y : Value, wellFormed x = true →
    storesAgree (backing x) (backing y) → deepEqual x y = true → specEqual x y = true
  | .nil, y, _, _, h => by cases y <;> first | rfl | exact absurd h Bool.false_ne_true
  | .bool _, y, _, _, h => by cases y <;> exact h
  | .int _, y, _, _, h => by cases y <;> exact h
  | .int32 _, y, _, _, h => by cases y <;> exact h
  | .float64 a, y, _, _, h => by
    cases y with
    | float64 b =>
      cases a with
      | none => exact absurd h Bool.false_ne_true
      | some p =>
        cases b with
        | none => exact absurd h Bool.false_ne_true
        | some q =>
          have h1 : (p == q) = true := h
          show (some p == some q) = true
          rw [beq_iff_eq.mp h1]
          exact beq_self_eq_true _
    | _ => exact absurd h Bool.false_ne_true
  | .str _, y, _, _, h => by cases y <;> exact h
  | .err _, y, _, _, h => by cases y <;> exact h
  | .formatter _ _ _, y, _, _, h => by
    cases y <;> exact h
  | .func a, y, _, _, h => by
    cases y with
    | func b =>
      have h1 : (a == 0 && b == 0) = true := h
      rw [Bool.and_eq_true] at h1
      show (a == b) = true
      rw [beq_iff_eq.mp h1.1, beq_iff_eq.mp h1.2]
      rfl
    | _ => exact absurd h Bool.false_ne_true
  | .nilSlice, y, _, _, h => by cases y <;> first | rfl | exact absurd h Bool.false_ne_true
  | .slice p xs, y, hw, hs, h => by
    cases y with
    | slice q ys =>
      have h1 : (xs.length == ys.length && (p == q || deepEqualElems xs ys)) = true := h
      rw [Bool.and_eq_true, Bool.or_eq_true] at h1
      show specEqualElems xs ys = true
      rcases h1.2 with hp | he
      · have hsame : Value.slice p xs = Value.slice q ys :=
          hs (p, .slice p xs) (List.mem_cons_self _ _) (q, .slice q ys)
            (List.mem_cons_self _ _) (beq_iff_eq.mp hp) (beq_iff_eq.mp h1.1)
        injection hsame with _ hxs
        rw [← hxs]
        exact specEqualElems_self xs hw
      · exact deepEqualElems_specEqual xs ys hw
          (storesAgree_mono hs (fun a ha => List.mem_cons_of_mem _ ha)
            (fun b hb => List.mem_cons_of_mem _ hb)) he
    | _ => exact absurd h Bool.false_ne_true
  | .nilMap, y, _, _, h => by cases y <;> first | rfl | exact absurd h Bool.false_ne_true
  | .map p m1, y, hw, hs, h => by
    cases y with
    | map q m2 =>
      have hw1 : (keysDistinct m1 && wellFormedEntries m1) = true := hw
      have h1 : (m1.length == m2.length && (p == q || deepEqualEntries m1 m2)) = true := h
      rw [Bool.and_eq_true, Bool.or_eq_true] at h1
      rw [Bool.and_eq_true] at hw1
      show (m1.length == m2.length && specEqualEntries m1 m2) = true
      rw [Bool.and_eq_true]
      refine ⟨h1.1, ?_⟩
      rcases h1.2 with hp | he
      · have hsame : Value.map p m1 = Value.map q m2 :=
          hs (p, .map p m1) (List.mem_cons_self _ _) (q, .map q m2)
            (List.mem_cons_self _ _) (beq_iff_eq.mp hp) (beq_iff_eq.mp h1.1)
        injection hsame with _ hm
        rw [← hm]
        exact specEqualEntries_self m1 m1
          (fun e he => mapIndex_of_mem m1 e.1 e.2 hw1.1 he) hw1.2
      · exact deepEqualEntries_specEqual m1 m2 hw1.2
          (storesAgree_mono hs (fun a ha => List.mem_cons_of_mem _ ha)
            (fun b hb => List.mem_cons_of_mem _ hb)) he
    | _ => exact absurd h Bool.false_ne_true
  | .struct f1, y, hw, hs, h => by
    cases y with
    | struct f2 => exact deepEqualFields_specEqual f1 f2 hw hs h
    | _ => exact absurd h Bool.false_ne_true
termination_by structural x => x
theorem deepEqualElems_specEqual : ∀ xs ys : List Value, wellFormedElems xs = true →
    storesAgree (backingElems xs) (backingElems ys) →
    deepEqualElems xs ys = true → specEqualElems xs ys = true
  | [], ys, _, _, h => by cases ys <;> first | rfl | exact absurd h Bool.false_ne_true
  | x :: xs, ys, hw, hs, h => by
    cases ys with
    | nil => exact absurd h Bool.false_ne_true
    | cons y ys =>
      have hw1 : (wellFormed x && wellFormedElems xs) = true := hw
      have h1 : (deepEqual x y && deepEqualElems xs ys) = true := h
      rw [Bool.and_eq_true] at hw1 h1
      have hs1 : storesAgree (backing x ++ backingElems xs)
          (backing y ++ backingElems ys) := hs
      show (specEqual x y && specEqualElems xs ys) = true
      rw [Bool.and_eq_true]
      exact ⟨deepEqual_specEqual x y hw1.1
          (storesAgree_mono hs1 (fun a ha => List.mem_append_left _ ha)
            (fun b hb => List.mem_append_left _ hb)) h1.1,
        deepEqualElems_specEqual xs ys hw1.2
          (storesAgree_mono hs1 (fun a ha => List.mem_append_right _ ha)
            (fun b hb => List.mem_append_right _ hb)) h1.2⟩
termination_by structural x => x
theorem deepEqualEntries_specEqual : ∀ rest m2 : List (String × Value),
    wellFormedEntries rest = true →
    storesAgree (backingEntries rest) (backingEntries m2) →
    deepEqualEntries rest m2 = true → specEqualEntries rest m2 = true
  | [], _, _, _, _ => rfl
  | (k, x) :: rest, m2, hw, hs, h => by
    have hw1 : (wellFormed x && wellFormedEntries rest) = true := hw
    have h1 : ((match mapIndex k m2 with
        | some y => deepEqual x y
        | none => false) && deepEqualEntries rest m2) = true := h
    rw [Bool.and_eq_true] at hw1 h1
    have hs1 : storesAgree (backing x ++ backingEntries rest) (backingEntries m2) := hs
    show ((match mapIndex k m2 with
        | some y => specEqual x y
        | none => false) && specEqualEntries rest m2) = true
    rw [Bool.and_eq_true]
    refine ⟨?_, deepEqualEntries_specEqual rest m2 hw1.2
      (storesAgree_mono hs1 (fun a ha => List.mem_append_right _ ha) (fun b hb => hb)) h1.2⟩
    have h2 := h1.1
    cases hidx : mapIndex k m2 with
    | none =>
      rw [hidx] at h2
      exact absurd h2 Bool.false_ne_true
    | some y =>
      rw [hidx] at h2
      exact deepEqual_specEqual x y hw1.1
        (storesAgree_mono hs1 (fun a ha => List.mem_append_left _ ha)
          (fun b hb => backing_mem_entries m2 (k, y) (mem_of_mapIndex m2 k y hidx) b hb)) h2
termination_by structural x => x
theorem deepEqualFields_specEqual : ∀ f1 f2 : List (String × Value),
    wellFormedEntries f1 = true →
    storesAgree (backingEntries f1) (backingEntries f2) →
    deepEqualFields f1 f2 = true → specEqualFields f1 f2 = true
  | [], f2, _, _, h => by cases f2 <;> first | rfl | exact absurd h Bool.false_ne_true
  | (n1, x) :: xs, f2, hw, hs, h => by
    cases f2 with
    | nil => exact absurd h Bool.false_ne_true
    | cons p ys =>
      obtain ⟨n2, y⟩ := p
      have hw1 : (wellFormed x && wellFormedEntries xs) = true := hw
      have h1 : (n1 == n2 && deepEqual x y && deepEqualFields xs ys) = true := h
      rw [Bool.and_eq_true, Bool.and_eq_true] at h1
      rw [Bool.and_eq_true] at hw1
      have hs1 : storesAgree (backing x ++ backingEntries xs)
          (backing y ++ backingEntries ys) := hs
      show (n1 == n2 && specEqual x y && specEqualFields xs ys) = true
      rw [Bool.and_eq_true, Bool.and_eq_true]
      exact ⟨⟨h1.1.1, deepEqual_specEqual x y hw1.1
          (storesAgree_mono hs1 (fun a ha => List.mem_append_left _ ha)
            (fun b hb => List.mem_append_left _ hb)) h1.1.2⟩,
        deepEqualFields_specEqual xs ys hw1.2
          (storesAgree_mono hs1 (fun a ha => List.mem_append_right _ ha)
            (fun b hb => List.mem_append_right _ hb)) h1.2⟩
termination_by structural x => x
end

/-! ## Equality: one value against itself, types, symmetry -/

theorem Equal_of_deepEqual {σ : Type} (o : FmtOracle) (t : TestingT σ) (s : σ)
    (want got : Value) (msgAndArgs : List Value) (h : deepEqual want got = true) :
    Equal o t s want got msgAndArgs = s := by
  simp [Equal, h]

theorem reportsFailure_Equal_iff (o : FmtOracle) (f : fakeT) (want got : Value)
    (msgAndArgs : List Value) :
    reportsFailure f (Equal o fakeT.reporter f want got msgAndArgs)
      ↔ deepEqual want got = false := by
  unfold reportsFailure
  cases h : deepEqual want got with
  | true => simp [Equal_of_deepEqual o fakeT.reporter f want got msgAndArgs h]
  | false =>
    rw [Equal_of_not_deepEqual o fakeT.reporter f want got msgAndArgs h]
    simp [fakeT.reporter, fakeT.Errorf, fakeT.Helper]

/-- C11, as stated, fails: a non-nil function value is not deeply equal to itself, so
`Equal(r, x, x)` for such an `x` calls `Helper` and then `Errorf`; the same holds of a NaN. -/
theorem Equal_self_reports_for_func :
    deepEqual (.func 1) (.func 1) = false
      ∧ (Equal FmtOracle.blank fakeT.reporter ⟨[]⟩ (.func 1) (.func 1) []).calls.map
          (fun c => c.name) = ["Helper", "Errorf"]
      ∧ deepEqual (.float64 none) (.float64 none) = false
      ∧ (Equal FmtOracle.blank fakeT.reporter ⟨[]⟩ (.float64 none) (.float64 none)
          []).calls.map (fun c => c.name) = ["Helper", "Errorf"] :=
  ⟨rfl, rfl, rfl, rfl⟩

/-- C11 (amended): for every reporter and every value `x`, `Equal(r, x, x)` makes no call to
the reporter, no `Helper` and no `Errorf`, provided that no NaN and no non-nil function
value is reached from `x` without passing through a slice, a map or a pointer
(`selfComparable`; the fragment has no pointer to such a value): `x` itself is none, and
neither is a field of `x`, nested structs included. What a slice or a map of `x` holds does
not matter, since the two operands share it: a slice or a map that holds a NaN or a non-nil
function value is silent. When a NaN or a non-nil function value is reached that way,
`Equal(r, x, x)` does report: `Helper`, then `Errorf`. -/
theorem Equal_self_silent {σ : Type} (o : FmtOracle) (t : TestingT σ) (s : σ) (f : fakeT)
    (x : Value) (msgAndArgs : List Value) :
    (selfComparable x = true →
        Equal o t s x x msgAndArgs = s
          ∧ (Equal o fakeT.reporter f x x msgAndArgs).calls = f.calls)
      ∧ (selfComparable x = false →
        Equal o t s x x msgAndArgs
          = t.Errorf (t.Helper s)
              ("not equal: want: " ++ render o x ++ ", got: " ++ render o x
                ++ optionalSuffix o msgAndArgs) [])
      ∧ selfComparable (.slice 10 [.func 5, .float64 none]) = true
      ∧ selfComparable (.map 10 [("f", .func 5), ("x", .float64 none)]) = true
      ∧ selfComparable (.struct [("f", .func 5)]) = false
      ∧ selfComparable (.struct [("inner", .struct [("x", .float64 none)])]) = false := by
  refine ⟨?_, ?_, rfl, rfl, rfl, rfl⟩
  · intro h
    have hd : deepEqual x x = true := by rw [deepEqual_self_eq, h]
    rw [Equal_of_deepEqual o t s x x msgAndArgs hd,
      Equal_of_deepEqual o fakeT.reporter f x x msgAndArgs hd]
    exact ⟨rfl, rfl⟩
  · intro h
    have hd : deepEqual x x = false := by rw [deepEqual_self_eq, h]
    exact Equal_of_not_deepEqual o t s x x msgAndArgs hd

theorem Equal_self_silent_witness :
    selfComparable (.struct [("a", .slice 10 [.func 5, .float64 none]),
        ("b", .map 11 [("k", .float64 none)]), ("c", .func 0), ("d", .str "x"),
        ("e", .struct [("n", .int 1), ("z", .nil)])]) = true
      ∧ (Equal FmtOracle.blank fakeT.reporter ⟨[⟨"Helper", []⟩]⟩
          (.struct [("a", .slice 10 [.func 5, .float64 none]),
            ("b", .map 11 [("k", .float64 none)]), ("c", .func 0), ("d", .str "x"),
            ("e", .struct [("n", .int 1), ("z", .nil)])])
          (.struct [("a", .slice 10 [.func 5, .float64 none]),
            ("b", .map 11 [("k", .float64 none)]), ("c", .func 0), ("d", .str "x"),
            ("e", .struct [("n", .int 1), ("z", .nil)])]) []).calls
        = [⟨"Helper", []⟩] :=
  ⟨by decide,
    ((Equal_self_silent FmtOracle.blank fakeT.reporter ⟨[]⟩ ⟨[⟨"Helper", []⟩]⟩
      (.struct [("a", .slice 10 [.func 5, .float64 none]),
        ("b", .map 11 [("k", .float64 none)]), ("c", .func 0), ("d", .str "x"),
        ("e", .struct [("n", .int 1), ("z", .nil)])]) []).1 (by decide)).2⟩

/-- C12, as stated, fails: a nil slice and an empty non-nil slice have the same type and the
same (no) elements, so the specification's equality holds of them, yet they are not deeply
equal and `Equal` reports a failure whose message shows two identical renderings. -/
theorem Equal_nil_slice_against_empty_reports :
    typeOf .nilSlice = typeOf (.slice 10 [])
      ∧ specEqual .nilSlice (.slice 10 []) = true
      ∧ deepEqual .nilSlice (.slice 10 []) = false
      ∧ (Equal FmtOracle.blank fakeT.reporter ⟨[]⟩ .nilSlice (.slice 10 []) []).calls
        = [⟨"Helper", []⟩, ⟨"Errorf", [Value.str "not equal: want: [], got: []"]⟩] :=
  ⟨rfl, rfl, rfl, rfl⟩

/-- C12 (amended): `Equal` compares types as well as contents. For every `want` and `got`
whose dynamic types differ, `Equal` reports a failure (`Helper`, then `Errorf`), even when
the two values render identically, as an `int` 1 against an `int32` 1 do. And `want` and
`got` are treated as equal only if they have the same type and every nested field or element
is recursively equal. The converse does not hold: a nil slice and an empty non-nil slice
have the same type and the same elements and are not treated as equal. (`wellFormed` and
`sharingConsistent` are the invariants of the representation: the keys of a map are
distinct, and two slices or maps with one address and one length are one.) -/
theorem Equal_compares_types {σ : Type} (o : FmtOracle) (t : TestingT σ) (s : σ)
    (want got : Value) (msgAndArgs : List Value) :
    (typeOf want ≠ typeOf got →
        Equal o t s want got msgAndArgs
          = t.Errorf (t.Helper s)
              ("not equal: want: " ++ render o want ++ ", got: " ++ render o got
                ++ optionalSuffix o msgAndArgs) [])
      ∧ (typeOf (.int 1) ≠ typeOf (.int32 1)
          ∧ render o (.int 1) = render o (.int32 1)
          ∧ (Equal o fakeT.reporter ⟨[]⟩ (.int 1) (.int32 1) []).calls
            = [⟨"Helper", []⟩, ⟨"Errorf", [Value.str "not equal: want: 1, got: 1"]⟩])
      ∧ (deepEqual want got = true → typeOf want = typeOf got)
      ∧ (wellFormed want = true → sharingConsistent want got →
          deepEqual want got = true → specEqual want got = true)
      ∧ (typeOf .nilSlice = typeOf (.slice 10 [])
          ∧ specEqual .nilSlice (.slice 10 []) = true
          ∧ deepEqual .nilSlice (.slice 10 []) = false) := by
  refine ⟨?_, ⟨?_, rfl, rfl⟩, deepEqual_typeOf want got, ?_, ⟨rfl, rfl, rfl⟩⟩
  · intro hne
    apply Equal_of_not_deepEqual
    cases h : deepEqual want got with
    | false => rfl
    | true => exact absurd (deepEqual_typeOf want got h) hne
  · intro h
    cases h
  · intro hw hs h
    exact deepEqual_specEqual want got hw hs h

theorem Equal_compares_types_witness :
    wellFormed (.map 1 [("a", .slice 2 [.int 1, .func 7]), ("b", .str "x")]) = true
      ∧ sharingConsistent (.map 1 [("a", .slice 2 [.int 1, .func 7]), ("b", .str "x")])
          (.map 3 [("b", .str "x"), ("a", .slice 2 [.int 1, .func 7])])
      ∧ deepEqual (.map 1 [("a", .slice 2 [.int 1, .func 7]), ("b", .str "x")])
          (.map 3 [("b", .str "x"), ("a", .slice 2 [.int 1, .func 7])]) = true
      ∧ specEqual (.map 1 [("a", .slice 2 [.int 1, .func 7]), ("b", .str "x")])
          (.map 3 [("b", .str "x"), ("a", .slice 2 [.int 1, .func 7])]) = true := by
  have hw : wellFormed (.map 1 [("a", .slice 2 [.int 1, .func 7]), ("b", .str "x")])
      = true := by decide
  have hd : deepEqual (.map 1 [("a", .slice 2 [.int 1, .func 7]), ("b", .str "x")])
      (.map 3 [("b", .str "x"), ("a", .slice 2 [.int 1, .func 7])]) = true := by decide
  have hs : sharingConsistent (.map 1 [("a", .slice 2 [.int 1, .func 7]), ("b", .str "x")])
      (.map 3 [("b", .str "x"), ("a", .slice 2 [.int 1, .func 7])]) := by
    intro a ha b hb h1 h2
    have ha1 : a ∈ [((1 : Nat), Value.map 1 [("a", .slice 2 [.int 1, .func 7]),
        ("b", .str "x")]), (2, Value.slice 2 [.int 1, .func 7])] := ha
    have hb1 : b ∈ [((3 : Nat), Value.map 3 [("b", .str "x"),
        ("a", .slice 2 [.int 1, .func 7])]), (2, Value.slice 2 [.int 1, .func 7])] := hb
    simp only [List.mem_cons, List.mem_singleton, List.not_mem_nil, or_false] at ha1 hb1
    rcases ha1 with rfl | rfl <;> rcases hb1 with rfl | rfl
    · exact absurd h1 (by decide)
    · exact absurd h1 (by decide)
    · exact absurd h1 (by decide)
    · rfl
  exact ⟨hw, hs, hd,
    (Equal_compares_types FmtOracle.blank fakeT.reporter ⟨[]⟩ _ _ []).2.2.2.1 hw hs hd⟩

/-! ## Rendering, the arguments of `Errorf`, and the separator -/

theorem render_struct (o : FmtOracle) (fields : List (String × Value))
    (parts : List (String × String)) (h : printEntries .plusV fields = some parts) :
    render o (.struct fields)
      = "\x7b" ++ joinWith " " (parts.map fun kv =>
          if kv.1 ≠ "" then kv.1 ++ ":" ++ kv.2 else kv.2) ++ "\x7d" := by
  have hv : printValue .plusV (.struct fields)
      = (printEntries .plusV fields).map fun parts =>
          "\x7b" ++ joinWith " " (parts.map fun kv =>
            if kv.1 ≠ "" then kv.1 ++ ":" ++ kv.2 else kv.2) ++ "\x7d" := rfl
  show ((printValue .plusV (.struct fields)).getD _) = _
  rw [hv, h]
  rfl

/-- C15: the failure message of `Equal` renders `want` and `got` in the default structural
form, field names and nested values visible: a struct prints `name:value` for each field
between braces, and for the maps of the test, which differ only in a nested struct field,
`Equal` reports `Helper` and then `Errorf` with exactly
"not equal: want: map[foo:{bar:baz}], got: map[foo:{bar:foobar}]". -/
theorem Equal_renders_nested_structure (o : FmtOracle) (fields : List (String × Value))
    (parts : List (String × String)) :
    (printEntries .plusV fields = some parts →
        render o (.struct fields)
          = "\x7b" ++ joinWith " " (parts.map fun kv =>
              if kv.1 ≠ "" then kv.1 ++ ":" ++ kv.2 else kv.2) ++ "\x7d")
      ∧ render o (.map 10 [("foo", .struct [("bar", .str "baz")])]) = "map[foo:\x7bbar:baz\x7d]"
      ∧ deepEqual (.map 10 [("foo", .struct [("bar", .str "baz")])])
          (.map 20 [("foo", .struct [("bar", .str "foobar")])]) = false
      ∧ (Equal o fakeT.reporter ⟨[]⟩ (.map 10 [("foo", .struct [("bar", .str "baz")])])
          (.map 20 [("foo", .struct [("bar", .str "foobar")])]) []).calls
        = [⟨"Helper", []⟩,
            ⟨"Errorf", [Value.str
              "not equal: want: map[foo:\x7bbar:baz\x7d], got: map[foo:\x7bbar:foobar\x7d]"]⟩] :=
  ⟨render_struct o fields parts, rfl, rfl, rfl⟩

/-- C16: on every failure of `Equal` or `NoError`, `Errorf` is called with the composed
message (base message and optional suffix) as its format and with an empty list of further
arguments, so the last call the recording reporter records is `Errorf` with the one-element
argument list `[message]`. -/
theorem Errorf_gets_message_as_only_argument {σ : Type} (o : FmtOracle) (t : TestingT σ)
    (s : σ) (f : fakeT) (want got : Value) (text : String) (msgAndArgs : List Value)
    (h : deepEqual want got = false) :
    (Equal o t s want got msgAndArgs
          = t.Errorf (t.Helper s)
              ("not equal: want: " ++ render o want ++ ", got: " ++ render o got
                ++ optionalSuffix o msgAndArgs) []
        ∧ (Equal o fakeT.reporter f want got msgAndArgs).calls.getLast?
          = some ⟨"Errorf", [Value.str ("not equal: want: " ++ render o want ++ ", got: "
              ++ render o got ++ optionalSuffix o msgAndArgs)]⟩)
      ∧ (NoError o t s (some (.errorString text)) msgAndArgs
          = t.Errorf (t.Helper s)
              ("unexpected error: " ++ text ++ optionalSuffix o msgAndArgs) []
        ∧ (NoError o fakeT.reporter f (some (.errorString text)) msgAndArgs).calls.getLast?
          = some ⟨"Errorf", [Value.str ("unexpected error: " ++ text
              ++ optionalSuffix o msgAndArgs)]⟩)
      ∧ (∀ e : ErrorValue,
        NoError o t s (some e) msgAndArgs
          = t.Errorf (t.Helper s)
              ("unexpected error: " ++ printArg o .v e.toValue
                ++ optionalSuffix o msgAndArgs) []
        ∧ (NoError o fakeT.reporter f (some e) msgAndArgs).calls.getLast?
          = some ⟨"Errorf", [Value.str ("unexpected error: " ++ printArg o .v e.toValue
              ++ optionalSuffix o msgAndArgs)]⟩) := by
  refine ⟨⟨Equal_of_not_deepEqual o t s want got msgAndArgs h, ?_⟩,
    ⟨NoError_of_errorString o t s text msgAndArgs, ?_⟩,
    fun e => ⟨NoError_of_error o t s e msgAndArgs, ?_⟩⟩
  · rw [Equal_of_not_deepEqual o fakeT.reporter f want got msgAndArgs h]
    simp [fakeT.reporter, fakeT.Errorf, fakeT.Helper]
  · rw [NoError_of_errorString o fakeT.reporter f text msgAndArgs]
    simp [fakeT.reporter, fakeT.Errorf, fakeT.Helper]
  · rw [NoError_of_error o fakeT.reporter f e msgAndArgs]
    simp [fakeT.reporter, fakeT.Errorf, fakeT.Helper]

theorem Errorf_gets_message_as_only_argument_witness :
    deepEqual (.str "100%") (.str "50%") = false
      ∧ (Equal FmtOracle.blank fakeT.reporter ⟨[]⟩ (.str "100%") (.str "50%")
          [Value.str "rate %d", Value.int 3]).calls.getLast?
        = some ⟨"Errorf", [Value.str "not equal: want: 100%, got: 50%: rate 3"]⟩ :=
  ⟨by decide,
    (Errorf_gets_message_as_only_argument FmtOracle.blank fakeT.reporter ⟨[]⟩ ⟨[]⟩
      (.str "100%") (.str "50%") "e" [Value.str "rate %d", Value.int 3]
      (by decide)).1.2⟩

/-- C17: in `fail` the separator ": " and the user message are appended exactly when the
rendered user message is not empty. When the rendering is empty, as for the one-element
list holding the empty string, `Errorf` gets the base message with no trailing ": "; when
the rendering `u` is not empty it gets the base message, ": " and `u`. -/
theorem fail_appends_iff_nonempty {σ : Type} (o : FmtOracle) (t : TestingT σ) (s : σ)
    (base : String) (msgAndArgs : List Value) :
    (msgAndArgsToString o msgAndArgs = "" →
        fail o t s base msgAndArgs = t.Errorf (t.Helper s) base [])
      ∧ (msgAndArgsToString o msgAndArgs ≠ "" →
        fail o t s base msgAndArgs
          = t.Errorf (t.Helper s) (base ++ ": " ++ msgAndArgsToString o msgAndArgs) [])
      ∧ msgAndArgsToString o [.str ""] = ""
      ∧ (fail o fakeT.reporter ⟨[]⟩ base [.str ""]).calls
        = [⟨"Helper", []⟩, ⟨"Errorf", [Value.str base]⟩]
      ∧ (Equal o fakeT.reporter ⟨[]⟩ (.int 1) (.int 2) [.str ""]).calls
        = [⟨"Helper", []⟩, ⟨"Errorf", [Value.str "not equal: want: 1, got: 2"]⟩] := by
  refine ⟨?_, ?_, rfl, ?_, rfl⟩
  · intro h
    simp [fail, h]
  · intro h
    simp [fail, h, String.append_assoc]
  · have h : msgAndArgsToString o [.str ""] = "" := rfl
    simp [fail, h, fakeT.reporter, fakeT.Errorf, fakeT.Helper]

/-- C18: the verdict of `Equal` is symmetric in the two compared values and does not depend
on the message arguments: `Equal(r, want, got, msgAndArgs...)` reports a failure if and only
if `Equal(r, got, want, msgAndArgs'...)` does. (`wellFormed` is the invariant of the
representation: the keys of a map are distinct.) -/
theorem Equal_verdict_symmetric (o : FmtOracle) (f g : fakeT) (want got : Value)
    (msgAndArgs msgAndArgs' : List Value)
    (hw : wellFormed want = true) (hg : wellFormed got = true) :
    deepEqual want got = deepEqual got want
      ∧ (reportsFailure f (Equal o fakeT.reporter f want got msgAndArgs)
        ↔ reportsFailure g (Equal o fakeT.reporter g got want msgAndArgs')) := by
  have hc := deepEqual_comm want got hw hg
  refine ⟨hc, ?_⟩
  rw [reportsFailure_Equal_iff, reportsFailure_Equal_iff, hc]

theorem Equal_verdict_symmetric_witness :
    wellFormed (.map 10 [("a", .int 1), ("b", .nilSlice)]) = true
      ∧ wellFormed (.map 20 [("b", .nilSlice), ("a", .int 1)]) = true
      ∧ (reportsFailure ⟨[]⟩ (Equal FmtOracle.blank fakeT.reporter ⟨[]⟩
            (.map 10 [("a", .int 1), ("b", .nilSlice)]) (.map 20 [("b", .nilSlice), ("a", .int 1)])
            [])
        ↔ reportsFailure ⟨[⟨"Helper", []⟩]⟩ (Equal FmtOracle.blank fakeT.reporter
            ⟨[⟨"Helper", []⟩]⟩ (.map 20 [("b", .nilSlice), ("a", .int 1)])
            (.map 10 [("a", .int 1), ("b", .nilSlice)]) [Value.str "again"])) :=
  ⟨by decide, by decide,
    (Equal_verdict_symmetric FmtOracle.blank ⟨[]⟩ ⟨[⟨"Helper", []⟩]⟩
      (.map 10 [("a", .int 1), ("b", .nilSlice)]) (.map 20 [("b", .nilSlice), ("a", .int 1)])
      [] [Value.str "again"] (by decide) (by decide)).2⟩

end Assert

/-! ## Create modes: the error text and the table of constants -/

namespace CreateMode

theorem strContains_append_right (a b : String) : strContains (a ++ b) b := by
  unfold strContains
  exact ⟨a.data, [], by simp [String.data_append]⟩

/-- C13: for every integer `f` outside 0..6, `parseCreateMode f` returns an error whose text
includes the decimal value of `f` as well as the phrase "invalid flag value", and it returns
no mode: the invalid value is not mapped to a default. -/
theorem parseCreateMode_error_names_value (f : Int) (h : f < 0 ∨ 6 < f) :
    ∃ text, parseCreateMode f = .error text
      ∧ strContains text (toString f)
      ∧ strContains text "invalid flag value"
      ∧ ∀ mode, parseCreateMode f ≠ .ok mode := by
  have h0 : f ≠ 0 := by omega
  have h1 : f ≠ 1 := by omega
  have h2 : f ≠ 2 := by omega
  have h3 : f ≠ 3 := by omega
  have h4 : f ≠ 4 := by omega
  have h5 : f ≠ 5 := by omega
  have h6 : f ≠ 6 := by omega
  have hp : parseCreateMode f = .error (invalidFlagText f) := by
    simp [parseCreateMode, FlagPersistent, FlagEphemeral, FlagSequence,
      FlagEphemeralSequential, FlagContainer, FlagTTL, FlagPersistentSequentialWithTTL,
      h0, h1, h2, h3, h4, h5, h6]
  refine ⟨invalidFlagText f, hp, strContains_append_right _ _,
    invalidFlagText_contains f, ?_⟩
  intro mode hm
  rw [hp] at hm
  cases hm

theorem parseCreateMode_error_names_value_witness :
    ((-123 : Int) < 0 ∨ (6 : Int) < -123)
      ∧ ∃ text, parseCreateMode (-123) = .error text
        ∧ strContains text "-123"
        ∧ strContains text "invalid flag value"
        ∧ ∀ mode, parseCreateMode (-123) ≠ .ok mode :=
  ⟨by decide, parseCreateMode_error_names_value (-123) (by decide)⟩

/-- C14: the seven flag constants have the wire values 0 to 6 in the order of the variant
table; for each of them `parseCreateMode` succeeds and returns the mode of the same name,
whose `toFlag` is that integer; and the seven integers are pairwise distinct. -/
theorem flag_constants_table :
    (FlagPersistent = 0 ∧ FlagEphemeral = 1 ∧ FlagSequence = 2
        ∧ FlagEphemeralSequential = 3 ∧ FlagContainer = 4 ∧ FlagTTL = 5
        ∧ FlagPersistentSequentialWithTTL = 6)
      ∧ (parseCreateMode FlagPersistent = .ok .persistent
        ∧ parseCreateMode FlagEphemeral = .ok .ephemeral
        ∧ parseCreateMode FlagSequence = .ok .sequential
        ∧ parseCreateMode FlagEphemeralSequential = .ok .ephemeralSequential
        ∧ parseCreateMode FlagContainer = .ok .container
        ∧ parseCreateMode FlagTTL = .ok .ttl
        ∧ parseCreateMode FlagPersistentSequentialWithTTL = .ok .persistentSequentialWithTTL)
      ∧ (createMode.persistent.toFlag = 0 ∧ createMode.ephemeral.toFlag = 1
        ∧ createMode.sequential.toFlag = 2 ∧ createMode.ephemeralSequential.toFlag = 3
        ∧ createMode.container.toFlag = 4 ∧ createMode.ttl.toFlag = 5
        ∧ createMode.persistentSequentialWithTTL.toFlag = 6)
      ∧ [FlagPersistent, FlagEphemeral, FlagSequence, FlagEphemeralSequential, FlagContainer,
          FlagTTL, FlagPersistentSequentialWithTTL].Nodup := by
  refine ⟨⟨rfl, rfl, rfl, rfl, rfl, rfl, rfl⟩, ⟨rfl, rfl, rfl, rfl, rfl, rfl, rfl⟩,
    ⟨rfl, rfl, rfl, rfl, rfl, rfl, rfl⟩, by decide⟩

end CreateMode

end Zk
